import Mathlib

/-!
# panicrgoup: PanicGroup

A small-step model of `src/panicrgoup/panicgroup.go`.

The group is shared between the goroutine that calls `Go` and `Wait` and the
wrapper goroutines started by `Go`.  Every access to the shared fields
(`wg`, `errOnce`, `err`, `cancel`) is one atomic action of the model; actions of
different goroutines interleave freely.  The task `f` itself is arbitrary user
code: the model only records how its call ended (or that it has not ended yet).

* `E` is the type of error values whose dynamic type is not `*PanicError`.
* `V` is the type of non-nil `interface{}` values (panic payloads).
-/

namespace panicrgoup

variable {E V : Type}

/-! ## Data model -/

/-- Go `type ErrType int`. -/
abbrev ErrType := Int

/-- Go constant `Error ErrType = iota`. -/
def Error : ErrType := 0

/-- Go constant `Panic`, the second constant of the `iota` block. -/
def Panic : ErrType := 1

/-- Go `type PanicError struct { R interface{}; Stack []byte }`.
`R = none` is the nil interface value. -/
structure PanicError (V : Type) where
  R : Option V
  Stack : List UInt8
deriving DecidableEq

/-- A non-nil value of the Go interface type `error`, split by the only
distinction the code makes: whether the type assertion `.(*PanicError)`
succeeds.  A `*PanicError` is represented by its pointee, `none` being the nil
pointer (a non-nil interface value holding a nil `*PanicError`). -/
inductive GoError (E V : Type) where
  | plain (e : E)
  | panicError (p : Option (PanicError V))
deriving DecidableEq

/-- How a call of `Wait` ends: it returns an `error` (`none` is nil) or it
panics with the `*PanicError` it found. -/
inductive WaitResult (E V : Type) where
  | returned (err : Option (GoError E V))
  | panicked (pErr : Option (PanicError V))
deriving DecidableEq

/-- How the call `f()` inside a wrapper ends.  `returned err` is a normal
return; `panicked r` is an abnormal end of `f` after which `recover()` in the
deferred function yields `r` (`none` is nil: `runtime.Goexit`, or `panic(nil)`
on Go releases older than 1.21). -/
inductive Outcome (E V : Type) where
  | returned (err : Option (GoError E V))
  | panicked (r : Option V)
deriving DecidableEq

/-- Program counter of a wrapper goroutine (the `go func() { ... }()` of `Go`).

* `callF`: inside `f()` (line 108);
* `atDo`: about to call `g.errOnce.Do` (line 109 after `err != nil`, or line 94
  after `r != nil` in the deferred function);
* `setErr`, `callCancel`, `leaveDo`: inside the function passed to
  `errOnce.Do`: before the assignment to `g.err`, before the `g.cancel`
  test, and before `Do` returns;
* `atDone`: in the deferred function, about to call `g.wg.Done()` (line 105);
* `exited`: the goroutine has ended. -/
inductive PC where
  | callF | atDo | setErr | callCancel | leaveDo | atDone | exited
deriving DecidableEq

/-- A wrapper goroutine: how its task ended (`none` while `f` runs) and where
the wrapper is. -/
structure Wrapper (E V : Type) where
  out : Option (Outcome E V)
  pc : PC
deriving DecidableEq

/-- State of `sync.Once`: `Do` not yet called, the one call of the function is
in progress (other callers of `Do` block), or it has returned. -/
inductive OnceState where
  | fresh | busy | done
deriving DecidableEq

/-- The goroutine that calls `Wait`: not called yet, blocked in `g.wg.Wait()`
(line 60), past it and before the `g.cancel` test (line 61), before the read of
`g.err` (line 65), or finished with a result. -/
inductive Waiter (E V : Type) where
  | idle
  | atBarrier (wo : ErrType)
  | afterBarrier (wo : ErrType)
  | afterCancel (wo : ErrType)
  | finished (wo : ErrType) (res : WaitResult E V)
deriving DecidableEq

/-- The group and the goroutines around it.

Fields of `PanicGroup`: `cancel` (only whether it is non-nil), `wg` (the
counter of the `sync.WaitGroup`), `errOnce`, `err`.
Goroutines: `spawning` callers of `Go` between `g.wg.Add(1)` and the `go`
statement, the wrappers `gs`, and the `waiter`.
Bookkeeping that the program does not store: the number of invocations of the
cancel function from inside `errOnce.Do` (`latchCancels`) and from `Wait`
(`waitCancels`), the index of the wrapper whose `Do` call ran the function
(`winner`), and how many `Wait` calls started, got past the barrier, and
ended. -/
structure State (E V : Type) where
  cancel : Bool
  wg : Int
  errOnce : OnceState
  err : Option (GoError E V)
  spawning : Nat
  gs : List (Wrapper E V)
  waiter : Waiter E V
  latchCancels : Nat
  waitCancels : Nat
  winner : Option Nat
  waitCalls : Nat
  waitPasses : Nat
  waitReturns : Nat
deriving DecidableEq

/-- All invocations of the function stored in `g.cancel`. -/
def State.cancelCalls (s : State E V) : Nat := s.latchCancels + s.waitCancels

/-- A group with nothing submitted; `c` tells whether `cancel` is set. -/
def init (c : Bool) : State E V :=
  { cancel := c, wg := 0, errOnce := .fresh, err := none, spawning := 0, gs := [],
    waiter := .idle, latchCancels := 0, waitCancels := 0, winner := none,
    waitCalls := 0, waitPasses := 0, waitReturns := 0 }

/-- The zero value `var pg PanicGroup`: `cancel` is nil. -/
def zeroGroup : State E V := init false

/-- The group returned by `WithContext`: `&PanicGroup{cancel: cancel}`. -/
def WithContext : State E V := init true

/-! ## The wrapper of `Go` -/

/-- Where the wrapper continues when `f()` has ended.
Normal return: `if err := f(); err != nil` leads to `errOnce.Do`, otherwise the
deferred function runs with `recover() = nil` and goes to `wg.Done()`.
Panic: the deferred function runs, `if r := recover(); r != nil` leads to
`errOnce.Do`, otherwise to `wg.Done()`. -/
def afterF : Outcome E V → PC
  | .returned (some _) => .atDo
  | .returned none => .atDone
  | .panicked (some _) => .atDo
  | .panicked none => .atDone

/-- The value assigned to `g.err` by the function passed to `errOnce.Do`:
`g.err = err` on the return path, and
`g.err = &PanicError{R: r, Stack: debug.Stack()}` in the deferred function,
where `stack` is what `debug.Stack()` returns. -/
def latchValue (o : Outcome E V) (stack : List UInt8) : Option (GoError E V) :=
  match o with
  | .returned err => err
  | .panicked r => some (.panicError (some { R := r, Stack := stack }))

/-! ## `Wait` after the barrier -/

/-- Lines 65 to 80 of `Wait`: the result computed from `g.err` and `wo`. -/
def waitResult (err : Option (GoError E V)) (wo : ErrType) : WaitResult E V :=
  match err with
  | none => .returned none
  | some e =>
    if wo = Error then .returned (some e)
    else if wo = Panic then
      match e with
      | .panicError pErr => .panicked pErr
      | .plain _ => .returned (some e)
    else .returned (some e)

/-! ## Atomic actions -/

/-- The atomic actions of the goroutines.

* `goAdd`, `goSpawn`: the two statements of `Go` (`g.wg.Add(1)`, `go ...`);
* `taskEnd i o`: the call `f()` of wrapper `i` ends with outcome `o`;
* `onceDo i`: wrapper `i` calls `g.errOnce.Do`;
* `setErr i stack`, `callCancel i`, `leaveDo i`: the statements of the function
  run by `Do`, and the return from `Do`;
* `wgDone i`: `g.wg.Done()`;
* `waitCall wo`: `Wait(wo)` is called; `waitPass`: `g.wg.Wait()` returns;
  `waitCancel`: lines 61 to 63; `waitReturn`: lines 65 to 80. -/
inductive Action (E V : Type) where
  | goAdd
  | goSpawn
  | taskEnd (i : Nat) (o : Outcome E V)
  | onceDo (i : Nat)
  | setErr (i : Nat) (stack : List UInt8)
  | callCancel (i : Nat)
  | leaveDo (i : Nat)
  | wgDone (i : Nat)
  | waitCall (wo : ErrType)
  | waitPass
  | waitCancel
  | waitReturn
deriving DecidableEq

/-- One atomic action; `none` when the action is not enabled in `s` (the
goroutine is elsewhere, or it is blocked: `Do` while another call runs the
function, `wg.Wait()` while the counter is not zero). -/
def step (s : State E V) : Action E V → Option (State E V)
  | .goAdd => some { s with wg := s.wg + 1, spawning := s.spawning + 1 }
  | .goSpawn =>
    if s.spawning = 0 then none
    else some { s with spawning := s.spawning - 1, gs := s.gs ++ [{ out := none, pc := .callF }] }
  | .taskEnd i o =>
    match s.gs[i]? with
    | none => none
    | some w =>
      if w.pc = .callF then some { s with gs := s.gs.set i { out := some o, pc := afterF o } }
      else none
  | .onceDo i =>
    match s.gs[i]? with
    | none => none
    | some w =>
      if w.pc = .atDo then
        match s.errOnce with
        | .fresh =>
          some { s with errOnce := .busy, winner := some i, gs := s.gs.set i { w with pc := .setErr } }
        | .busy => none
        | .done => some { s with gs := s.gs.set i { w with pc := .atDone } }
      else none
  | .setErr i stack =>
    match s.gs[i]? with
    | none => none
    | some w =>
      if w.pc = .setErr then
        match w.out with
        | none => none
        | some o =>
          some { s with err := latchValue o stack, gs := s.gs.set i { w with pc := .callCancel } }
      else none
  | .callCancel i =>
    match s.gs[i]? with
    | none => none
    | some w =>
      if w.pc = .callCancel then
        some { s with latchCancels := if s.cancel then s.latchCancels + 1 else s.latchCancels,
                      gs := s.gs.set i { w with pc := .leaveDo } }
      else none
  | .leaveDo i =>
    match s.gs[i]? with
    | none => none
    | some w =>
      if w.pc = .leaveDo then
        some { s with errOnce := .done, gs := s.gs.set i { w with pc := .atDone } }
      else none
  | .wgDone i =>
    match s.gs[i]? with
    | none => none
    | some w =>
      if w.pc = .atDone then
        some { s with wg := s.wg - 1, gs := s.gs.set i { w with pc := .exited } }
      else none
  | .waitCall wo =>
    match s.waiter with
    | .idle => some { s with waiter := .atBarrier wo, waitCalls := s.waitCalls + 1 }
    | .finished _ _ => some { s with waiter := .atBarrier wo, waitCalls := s.waitCalls + 1 }
    | _ => none
  | .waitPass =>
    match s.waiter with
    | .atBarrier wo =>
      if s.wg = 0 then some { s with waiter := .afterBarrier wo, waitPasses := s.waitPasses + 1 }
      else none
    | _ => none
  | .waitCancel =>
    match s.waiter with
    | .afterBarrier wo =>
      some { s with waiter := .afterCancel wo,
                    waitCancels := if s.cancel then s.waitCancels + 1 else s.waitCancels }
    | _ => none
  | .waitReturn =>
    match s.waiter with
    | .afterCancel wo =>
      some { s with waiter := .finished wo (waitResult s.err wo),
                    waitReturns := s.waitReturns + 1 }
    | _ => none

/-- A schedule: the actions taken one after the other. -/
def run (s : State E V) : List (Action E V) → Option (State E V)
  | [] => some s
  | a :: as => (step s a).bind fun s' => run s' as

/-- States of a group created with (`c = true`) or without (`c = false`) a
cancel function, after any schedule. -/
def Reachable (c : Bool) (s : State E V) : Prop :=
  ∃ as, run (init c) as = some s

/-- The rest of a `Wait` call that is blocked at the barrier, run without
other actions in between. -/
def finishWait (s : State E V) : Option (State E V) :=
  run s [.waitPass, .waitCancel, .waitReturn]

/-- A whole `Wait(wo)` call run without other actions in between. -/
def Wait (s : State E V) (wo : ErrType) : Option (State E V) :=
  run s [.waitCall wo, .waitPass, .waitCancel, .waitReturn]

/-! ## Vocabulary of the properties -/

/-- The task ended in a way the wrapper offers to the latch: it returned a
non-nil error, or it panicked and `recover()` gave a non-nil value. -/
def Outcome.failed : Outcome E V → Bool
  | .returned (some _) => true
  | .returned none => false
  | .panicked (some _) => true
  | .panicked none => false

/-- The task of this wrapper has ended and failed. -/
def Wrapper.failed (w : Wrapper E V) : Bool :=
  match w.out with
  | some o => o.failed
  | none => false

/-- The wrapper is inside the function run by `errOnce.Do`. -/
def inBody : PC → Bool
  | .setErr => true
  | .callCancel => true
  | .leaveDo => true
  | _ => false

/-- Number of wrappers that have not called `wg.Done()` yet. -/
def live : List (Wrapper E V) → Nat
  | [] => 0
  | w :: ws => (if w.pc = .exited then 0 else 1) + live ws

/-- 1 when the `Wait` call is blocked at the barrier. -/
def Waiter.blocked : Waiter E V → Nat
  | .atBarrier _ => 1
  | _ => 0

/-- 1 when the `Wait` call is between the barrier and its cancel test. -/
def Waiter.beforeCancel : Waiter E V → Nat
  | .afterBarrier _ => 1
  | _ => 0

/-- 1 when the `Wait` call is past the barrier and has not ended. -/
def Waiter.inside : Waiter E V → Nat
  | .afterBarrier _ => 1
  | .afterCancel _ => 1
  | _ => 0

/-- The current `Wait` call has got past `g.wg.Wait()`. -/
def Waiter.passed : Waiter E V → Bool
  | .afterBarrier _ => true
  | .afterCancel _ => true
  | .finished _ _ => true
  | _ => false

/-- The current `Wait` call has executed lines 61 to 63. -/
def Waiter.cancelled : Waiter E V → Bool
  | .afterCancel _ => true
  | .finished _ _ => true
  | _ => false

/-- What the shared fields look like, given where the wrapper that runs the
function of `errOnce.Do` is. -/
def WinnerAt (s : State E V) (o : Outcome E V) : PC → Prop
  | .callF => False
  | .atDo => False
  | .setErr => s.errOnce = .busy ∧ s.err = none ∧ s.latchCancels = 0
  | .callCancel => s.errOnce = .busy ∧ (∃ stk, s.err = latchValue o stk) ∧ s.latchCancels = 0
  | .leaveDo =>
    s.errOnce = .busy ∧ (∃ stk, s.err = latchValue o stk) ∧
      s.latchCancels = (if s.cancel then 1 else 0)
  | .atDone =>
    s.errOnce = .done ∧ (∃ stk, s.err = latchValue o stk) ∧
      s.latchCancels = (if s.cancel then 1 else 0)
  | .exited =>
    s.errOnce = .done ∧ (∃ stk, s.err = latchValue o stk) ∧
      s.latchCancels = (if s.cancel then 1 else 0)

/-- The invariant of the transition system. -/
structure Inv (s : State E V) : Prop where
  wg_eq : s.wg = (s.spawning : Int) + (live s.gs : Int)
  atDo_failed : ∀ (j : Nat) (w : Wrapper E V), s.gs[j]? = some w → w.pc = .atDo → w.failed = true
  latched : ∀ (j : Nat) (w : Wrapper E V), s.gs[j]? = some w → (w.pc = .atDone ∨ w.pc = .exited) →
    w.failed = true → s.errOnce = .done
  body_winner : ∀ (j : Nat) (w : Wrapper E V), s.gs[j]? = some w → inBody w.pc = true → s.winner = some j
  fresh_iff : s.errOnce = .fresh ↔ s.winner = none
  fresh_clean : s.errOnce = .fresh → s.err = none ∧ s.latchCancels = 0
  winner_ok : ∀ i, s.winner = some i →
    ∃ w o, s.gs[i]? = some w ∧ w.out = some o ∧ o.failed = true ∧ WinnerAt s o w.pc
  calls_eq : s.waitPasses + s.waiter.blocked = s.waitCalls
  returns_eq : s.waitReturns + s.waiter.inside = s.waitPasses
  cancels_eq : if s.cancel then s.waitCancels + s.waiter.beforeCancel = s.waitPasses
    else s.waitCancels = 0
  idle_calls : s.waiter = .idle → s.waitCalls = 0
  passed_pos : s.waiter.passed = true → 0 < s.waitPasses

/-- The wrapper of the first `errOnce.Do` call of a schedule. -/
def firstDo : List (Action E V) → Option Nat
  | [] => none
  | .onceDo i :: _ => some i
  | _ :: as => firstDo as

/-- Drop what concerns the cancel function: the field itself and the counts of
its invocations. -/
def forget (s : State E V) : State E V :=
  { s with cancel := false, latchCancels := 0, waitCancels := 0 }

/-- The actions of a wrapper after its task has ended: they need no new `Go`
call, no task to end and no step of `Wait`. -/
def Action.afterTask : Action E V → Bool
  | .onceDo _ => true
  | .setErr _ _ => true
  | .callCancel _ => true
  | .leaveDo _ => true
  | .wgDone _ => true
  | _ => false

/-- Some schedule made only of actions of wrappers whose task has ended leads
from `s` to `s'`. -/
def Reach (s s' : State E V) : Prop :=
  ∃ as : List (Action E V), (∀ a ∈ as, a.afterTask = true) ∧ run s as = some s'

/-- Every task has ended: no wrapper is inside `f()`. -/
def AllEnded (s : State E V) : Prop :=
  ∀ (j : Nat) (w : Wrapper E V), s.gs[j]? = some w → w.pc ≠ .callF

/-! ## Concrete schedules -/

/-- One task submitted to a zero-value group panics with `"boom"`; `Wait(wo)`
was called and is at its barrier when the wrapper has ended. -/
def boomTrace (wo : ErrType) : List (Action String String) :=
  [.goAdd, .goSpawn, .waitCall wo, .taskEnd 0 (.panicked (some "boom")), .onceDo 0,
   .setErr 0 [103, 111], .callCancel 0, .leaveDo 0, .wgDone 0]

/-- The state at the end of `boomTrace`. -/
def boomState (wo : ErrType) : State String String :=
  { cancel := false, wg := 0, errOnce := .done,
    err := some (.panicError (some { R := some "boom", Stack := [103, 111] })),
    spawning := 0, gs := [{ out := some (.panicked (some "boom")), pc := .exited }],
    waiter := .atBarrier wo, latchCancels := 0, waitCancels := 0, winner := some 0,
    waitCalls := 1, waitPasses := 0, waitReturns := 0 }

/-- One task, submitted to a group made by `WithContext`, returns the error
`"e1"`; `Wait(wo)` was called and is at its barrier when the wrapper has ended. -/
def errTrace (wo : ErrType) : List (Action String String) :=
  [.goAdd, .goSpawn, .waitCall wo, .taskEnd 0 (.returned (some (.plain "e1"))), .onceDo 0,
   .setErr 0 [], .callCancel 0, .leaveDo 0, .wgDone 0]

/-- The state at the end of `errTrace`. -/
def errState (wo : ErrType) : State String String :=
  { cancel := true, wg := 0, errOnce := .done, err := some (.plain "e1"),
    spawning := 0, gs := [{ out := some (.returned (some (.plain "e1"))), pc := .exited }],
    waiter := .atBarrier wo, latchCancels := 1, waitCancels := 0, winner := some 0,
    waitCalls := 1, waitPasses := 0, waitReturns := 0 }

/-- Two tasks are submitted to a group made by `WithContext` and both return
nil; `Wait(Panic)` is at its barrier when both wrappers have ended. -/
def okTrace : List (Action String String) :=
  [.goAdd, .goSpawn, .goAdd, .goSpawn, .waitCall Panic, .taskEnd 1 (.returned none),
   .taskEnd 0 (.returned none), .wgDone 0, .wgDone 1]

/-- The state at the end of `okTrace`. -/
def okState : State String String :=
  { cancel := true, wg := 0, errOnce := .fresh, err := none, spawning := 0,
    gs := [{ out := some (.returned none), pc := .exited },
           { out := some (.returned none), pc := .exited }],
    waiter := .atBarrier Panic, latchCancels := 0, waitCancels := 0, winner := none,
    waitCalls := 1, waitPasses := 0, waitReturns := 0 }

/-- The task of a zero-value group returns, on its normal path, an error whose
dynamic type is `*PanicError`; the wrapper ends; then `Wait(Panic)` is called
and is at its barrier. -/
def returnedPanicErrorTrace : List (Action String String) :=
  [.goAdd, .goSpawn,
   .taskEnd 0 (.returned (some (.panicError (some { R := some "mine", Stack := [] })))),
   .onceDo 0, .setErr 0 [], .callCancel 0, .leaveDo 0, .wgDone 0, .waitCall Panic]

/-- The state at the end of `returnedPanicErrorTrace`. -/
def returnedPanicErrorState : State String String :=
  { cancel := false, wg := 0, errOnce := .done,
    err := some (.panicError (some { R := some "mine", Stack := [] })),
    spawning := 0,
    gs := [{ out := some (.returned (some (.panicError (some { R := some "mine", Stack := [] })))),
             pc := .exited }],
    waiter := .atBarrier Panic, latchCancels := 0, waitCancels := 0, winner := some 0,
    waitCalls := 1, waitPasses := 0, waitReturns := 0 }

/-- Two tasks are submitted; the first returns the error `"e0"`, the second
panics with `"p1"`; the wrapper of the second calls `errOnce.Do` first.
`Wait(Error)` is at its barrier when both wrappers have ended. -/
def raceTrace : List (Action String String) :=
  [.goAdd, .goSpawn, .goAdd, .goSpawn, .waitCall Error,
   .taskEnd 0 (.returned (some (.plain "e0"))), .taskEnd 1 (.panicked (some "p1")),
   .onceDo 1, .setErr 1 [7], .callCancel 1, .leaveDo 1, .onceDo 0, .wgDone 0, .wgDone 1]

/-- The state at the end of `raceTrace` on a group made by `WithContext`. -/
def raceState : State String String :=
  { cancel := true, wg := 0, errOnce := .done,
    err := some (.panicError (some { R := some "p1", Stack := [7] })),
    spawning := 0,
    gs := [{ out := some (.returned (some (.plain "e0"))), pc := .exited },
           { out := some (.panicked (some "p1")), pc := .exited }],
    waiter := .atBarrier Error, latchCancels := 1, waitCancels := 0, winner := some 1,
    waitCalls := 1, waitPasses := 0, waitReturns := 0 }

/-- One task of a group made by `WithContext` returns an error, its wrapper
ends, then `Wait(Error)` is called once and returns. -/
def failThenWaitTrace : List (Action String String) :=
  [.goAdd, .goSpawn, .taskEnd 0 (.returned (some (.plain "e1"))), .onceDo 0,
   .setErr 0 [], .callCancel 0, .leaveDo 0, .wgDone 0,
   .waitCall Error, .waitPass, .waitCancel, .waitReturn]

/-- The state at the end of `failThenWaitTrace`. -/
def failThenWaitState : State String String :=
  { cancel := true, wg := 0, errOnce := .done, err := some (.plain "e1"),
    spawning := 0, gs := [{ out := some (.returned (some (.plain "e1"))), pc := .exited }],
    waiter := .finished Error (.returned (some (.plain "e1"))),
    latchCancels := 1, waitCancels := 1, winner := some 0,
    waitCalls := 1, waitPasses := 1, waitReturns := 1 }

/-- Three tasks of a zero-value group have ended, by a return of nil, a return
of an error and a panic; none of the wrappers has called `wg.Done()` or
`errOnce.Do` yet, and a fourth `Go` call has not started its goroutine. -/
def mixedTrace : List (Action String String) :=
  [.goAdd, .goSpawn, .goAdd, .goSpawn, .goAdd, .goSpawn, .goAdd, .waitCall Error,
   .taskEnd 2 (.panicked (some "p2")), .taskEnd 0 (.returned none),
   .taskEnd 1 (.returned (some (.plain "e1")))]

/-- The state at the end of `mixedTrace`. -/
def mixedState : State String String :=
  { cancel := false, wg := 4, errOnce := .fresh, err := none, spawning := 1,
    gs := [{ out := some (.returned none), pc := .atDone },
           { out := some (.returned (some (.plain "e1"))), pc := .atDo },
           { out := some (.panicked (some "p2")), pc := .atDo }],
    waiter := .atBarrier Error, latchCancels := 0, waitCancels := 0, winner := none,
    waitCalls := 1, waitPasses := 0, waitReturns := 0 }

/-- Two tasks of a zero-value group both end by `panic(nil)` on a Go runtime
where `recover()` then reports nil (releases older than 1.21, or
`GODEBUG=panicnil=1`): each deferred function finds `r == nil` at line 93 and
goes to `g.wg.Done()`.  `Wait(Error)` was called before the tasks ended and
runs to its end. -/
def nilPanicRaceTrace : List (Action String String) :=
  [.goAdd, .goSpawn, .goAdd, .goSpawn, .waitCall Error, .taskEnd 0 (.panicked none),
   .taskEnd 1 (.panicked none), .wgDone 1, .wgDone 0, .waitPass, .waitCancel, .waitReturn]

/-- The state at the end of `nilPanicRaceTrace`. -/
def nilPanicRaceState : State String String :=
  { cancel := false, wg := 0, errOnce := .fresh, err := none, spawning := 0,
    gs := [{ out := some (.panicked none), pc := .exited },
           { out := some (.panicked none), pc := .exited }],
    waiter := .finished Error (.returned none), latchCancels := 0, waitCancels := 0,
    winner := none, waitCalls := 1, waitPasses := 1, waitReturns := 1 }

/-- One task of a group made by `WithContext` ends by `panic(nil)` on a Go
runtime where `recover()` then reports nil; its wrapper calls `g.wg.Done()`;
then `Wait(Error)` is called and is at its barrier. -/
def nilPanicTrace : List (Action String String) :=
  [.goAdd, .goSpawn, .taskEnd 0 (.panicked none), .wgDone 0, .waitCall Error]

/-- The state at the end of `nilPanicTrace`. -/
def nilPanicState : State String String :=
  { cancel := true, wg := 0, errOnce := .fresh, err := none, spawning := 0,
    gs := [{ out := some (.panicked none), pc := .exited }],
    waiter := .atBarrier Error, latchCancels := 0, waitCancels := 0,
    winner := none, waitCalls := 1, waitPasses := 0, waitReturns := 0 }

/-- One task panicked with `"boom"`; its wrapper has been through `errOnce.Do`
and is about to call `g.wg.Done()`. -/
def beforeDoneTrace : List (Action String String) :=
  [.goAdd, .goSpawn, .taskEnd 0 (.panicked (some "boom")), .onceDo 0, .setErr 0 [103],
   .callCancel 0, .leaveDo 0]

/-- The state at the end of `beforeDoneTrace` on a zero-value group. -/
def beforeDoneState : State String String :=
  { cancel := false, wg := 1, errOnce := .done,
    err := some (.panicError (some { R := some "boom", Stack := [103] })),
    spawning := 0, gs := [{ out := some (.panicked (some "boom")), pc := .atDone }],
    waiter := .idle, latchCancels := 0, waitCancels := 0, winner := some 0,
    waitCalls := 0, waitPasses := 0, waitReturns := 0 }

/-- One task of a group made by `WithContext` returns the error `"e1"`; its
wrapper has entered `errOnce.Do` and executed `g.err = err` (line 110), and has
not yet reached the `g.cancel` test of line 111. -/
def assignedTrace : List (Action String String) :=
  [.goAdd, .goSpawn, .taskEnd 0 (.returned (some (.plain "e1"))), .onceDo 0, .setErr 0 []]

/-- The state at the end of `assignedTrace`. -/
def assignedState : State String String :=
  { cancel := true, wg := 1, errOnce := .busy, err := some (.plain "e1"), spawning := 0,
    gs := [{ out := some (.returned (some (.plain "e1"))), pc := .callCancel }],
    waiter := .idle, latchCancels := 0, waitCancels := 0, winner := some 0,
    waitCalls := 0, waitPasses := 0, waitReturns := 0 }

/-- Two tasks of a group made by `WithContext`: the first returned nil and its
wrapper has ended, the second is still running; `Wait(Error)` is blocked at its
barrier. -/
def runningTrace : List (Action String String) :=
  [.goAdd, .goSpawn, .goAdd, .goSpawn, .waitCall Error, .taskEnd 0 (.returned none),
   .wgDone 0]

/-- The state at the end of `runningTrace`. -/
def runningState : State String String :=
  { cancel := true, wg := 1, errOnce := .fresh, err := none, spawning := 0,
    gs := [{ out := some (.returned none), pc := .exited }, { out := none, pc := .callF }],
    waiter := .atBarrier Error, latchCancels := 0, waitCancels := 0, winner := none,
    waitCalls := 1, waitPasses := 0, waitReturns := 0 }

/-! ## Lists of wrappers -/

theorem lookup_set {gs : List (Wrapper E V)} {i j : Nat} {w x : Wrapper E V}
    (h : (gs.set i w)[j]? = some x) :
    (j = i ∧ x = w) ∨ (j ≠ i ∧ gs[j]? = some x) := by
  by_cases hij : i = j
  · subst hij
    rw [List.getElem?_set] at h
    simp only [if_true] at h
    split at h
    · left; exact ⟨rfl, (Option.some.inj h).symm⟩
    · cases h
  · rw [List.getElem?_set_ne hij] at h
    right; exact ⟨fun e => hij e.symm, h⟩

theorem lookup_set_self {gs : List (Wrapper E V)} {i : Nat} {w x : Wrapper E V}
    (h : gs[i]? = some x) : (gs.set i w)[i]? = some w := by
  obtain ⟨hlt, _⟩ := List.getElem?_eq_some.mp h
  exact List.getElem?_set_self hlt

theorem lookup_snoc {gs : List (Wrapper E V)} {j : Nat} {w x : Wrapper E V}
    (h : (gs ++ [w])[j]? = some x) :
    gs[j]? = some x ∨ (j = gs.length ∧ x = w) := by
  by_cases hj : j < gs.length
  · rw [List.getElem?_append_left hj] at h
    left; exact h
  · have hle : gs.length ≤ j := Nat.le_of_not_lt hj
    rw [List.getElem?_append_right hle] at h
    right
    by_cases h0 : j - gs.length = 0
    · rw [h0] at h
      simp at h
      exact ⟨by omega, h.symm⟩
    · obtain ⟨k, hk⟩ := Nat.exists_eq_succ_of_ne_zero h0
      rw [hk] at h
      simp at h

theorem live_snoc (gs : List (Wrapper E V)) (w : Wrapper E V) :
    live (gs ++ [w]) = live gs + (if w.pc = .exited then 0 else 1) := by
  induction gs with
  | nil => simp [live]
  | cons a as ih =>
    show (if a.pc = .exited then 0 else 1) + live (as ++ [w]) = _
    rw [ih]; simp only [live]; omega

theorem live_set {gs : List (Wrapper E V)} {i : Nat} {w w' : Wrapper E V}
    (h : gs[i]? = some w) :
    live (gs.set i w') + (if w.pc = .exited then 0 else 1) =
      live gs + (if w'.pc = .exited then 0 else 1) := by
  induction gs generalizing i with
  | nil => simp at h
  | cons a as ih =>
    cases i with
    | zero =>
      simp at h
      subst h
      simp only [List.set_cons_zero, live]; omega
    | succ k =>
      simp at h
      have := ih h
      simp only [List.set_cons_succ, live]; omega

theorem live_set_same {gs : List (Wrapper E V)} {i : Nat} {w w' : Wrapper E V}
    (h : gs[i]? = some w) (h1 : w.pc ≠ .exited) (h2 : w'.pc ≠ .exited) :
    live (gs.set i w') = live gs := by
  have := @live_set E V gs i w w' h
  simp only [h1, h2, if_false] at this
  omega

/-! ## The invariant holds in every reachable state -/

theorem WinnerAt_congr {s s' : State E V} {o : Outcome E V} {pc : PC}
    (h1 : s'.errOnce = s.errOnce) (h2 : s'.err = s.err) (h3 : s'.latchCancels = s.latchCancels)
    (h4 : s'.cancel = s.cancel) (h : WinnerAt s o pc) : WinnerAt s' o pc := by
  cases pc <;> simp only [WinnerAt, h1, h2, h3, h4] at h ⊢ <;> exact h

theorem inv_init (c : Bool) : Inv (init c : State E V) := by
  refine ⟨?_, ?_, ?_, ?_, ?_, ?_, ?_, ?_, ?_, ?_, ?_, ?_⟩ <;>
    simp [init, live, Waiter.blocked, Waiter.beforeCancel, Waiter.passed, Waiter.inside]

theorem inv_goAdd {s s' : State E V} (hI : Inv s) (h : step s .goAdd = some s') : Inv s' := by
  simp only [step, Option.some.injEq] at h
  subst h
  refine ⟨?_, hI.atDo_failed, hI.latched, hI.body_winner, hI.fresh_iff, hI.fresh_clean, ?_,
    hI.calls_eq, hI.returns_eq, hI.cancels_eq, hI.idle_calls, hI.passed_pos⟩
  · have := hI.wg_eq
    simp only [Nat.cast_add, Nat.cast_one]; omega
  · intro i hi
    obtain ⟨w, o, h1, h2, h3, h4⟩ := hI.winner_ok i hi
    exact ⟨w, o, h1, h2, h3, WinnerAt_congr rfl rfl rfl rfl h4⟩

theorem afterF_failed (o : Outcome E V) (h : o.failed = true) : afterF o = .atDo := by
  cases o with
  | returned err => cases err <;> simp_all [Outcome.failed, afterF]
  | panicked r => cases r <;> simp_all [Outcome.failed, afterF]

theorem afterF_ok (o : Outcome E V) (h : o.failed = false) : afterF o = .atDone := by
  cases o with
  | returned err => cases err <;> simp_all [Outcome.failed, afterF]
  | panicked r => cases r <;> simp_all [Outcome.failed, afterF]

theorem failed_out {w : Wrapper E V} (h : w.failed = true) :
    ∃ o, w.out = some o ∧ o.failed = true := by
  unfold Wrapper.failed at h
  split at h
  · rename_i o ho; exact ⟨o, ho, h⟩
  · cases h

theorem lookup_snoc_old {gs : List (Wrapper E V)} {i : Nat} {w x : Wrapper E V}
    (h : gs[i]? = some x) : (gs ++ [w])[i]? = some x := by
  obtain ⟨hlt, _⟩ := List.getElem?_eq_some.mp h
  rw [List.getElem?_append_left hlt]; exact h

theorem lookup_set_ne {gs : List (Wrapper E V)} {i j : Nat} {w x : Wrapper E V}
    (hne : j ≠ i) (h : gs[j]? = some x) : (gs.set i w)[j]? = some x := by
  rw [List.getElem?_set_ne (fun e => hne e.symm)]; exact h

theorem inv_goSpawn {s s' : State E V} (hI : Inv s) (h : step s .goSpawn = some s') : Inv s' := by
  simp only [step] at h
  split at h
  · cases h
  · rename_i hsp
    simp only [Option.some.injEq] at h
    subst h
    refine ⟨?_, ?_, ?_, ?_, hI.fresh_iff, hI.fresh_clean, ?_,
      hI.calls_eq, hI.returns_eq, hI.cancels_eq, hI.idle_calls, hI.passed_pos⟩
    · have := hI.wg_eq
      simp only [live_snoc, reduceCtorEq, if_false]
      omega
    · intro j x hx hp
      rcases lookup_snoc hx with hx | ⟨_, rfl⟩
      · exact hI.atDo_failed j x hx hp
      · cases hp
    · intro j x hx hp
      rcases lookup_snoc hx with hx | ⟨_, rfl⟩
      · exact hI.latched j x hx hp
      · rcases hp with hp | hp <;> cases hp
    · intro j x hx hp
      rcases lookup_snoc hx with hx | ⟨_, rfl⟩
      · exact hI.body_winner j x hx hp
      · cases hp
    · intro i hi
      obtain ⟨w, o, h1, h2, h3, h4⟩ := hI.winner_ok i hi
      exact ⟨w, o, lookup_snoc_old h1, h2, h3, WinnerAt_congr rfl rfl rfl rfl h4⟩

theorem inv_taskEnd {s s' : State E V} {i : Nat} {o : Outcome E V} (hI : Inv s)
    (h : step s (.taskEnd i o) = some s') : Inv s' := by
  simp only [step] at h
  split at h
  · cases h
  · rename_i w hw
    split at h
    · rename_i hpc
      simp only [Option.some.injEq] at h
      subst h
      have hcases : afterF o = .atDo ∨ afterF o = .atDone := by
        cases hf : o.failed
        · right; exact afterF_ok o hf
        · left; exact afterF_failed o hf
      refine ⟨?_, ?_, ?_, ?_, hI.fresh_iff, hI.fresh_clean, ?_,
        hI.calls_eq, hI.returns_eq, hI.cancels_eq, hI.idle_calls, hI.passed_pos⟩
      · have := hI.wg_eq
        have hl : live (s.gs.set i { out := some o, pc := afterF o }) = live s.gs := by
          apply live_set_same hw
          · rw [hpc]; decide
          · rcases hcases with hc | hc <;> simp [hc]
        simp only [hl]; exact this
      · intro j x hx hp
        rcases lookup_set hx with ⟨_, rfl⟩ | ⟨_, hx⟩
        · simp only [Wrapper.failed]
          cases hf : o.failed
          · rw [afterF_ok o hf] at hp; cases hp
          · rfl
        · exact hI.atDo_failed j x hx hp
      · intro j x hx hp hfl
        rcases lookup_set hx with ⟨_, rfl⟩ | ⟨_, hx⟩
        · simp only [Wrapper.failed] at hfl
          rw [afterF_failed o hfl] at hp
          rcases hp with hp | hp <;> cases hp
        · exact hI.latched j x hx hp hfl
      · intro j x hx hp
        rcases lookup_set hx with ⟨_, rfl⟩ | ⟨_, hx⟩
        · rcases hcases with hc | hc <;> simp [hc, inBody] at hp
        · exact hI.body_winner j x hx hp
      · intro i0 hi
        obtain ⟨w0, o0, h1, h2, h3, h4⟩ := hI.winner_ok i0 hi
        by_cases he : i0 = i
        · subst he
          rw [hw] at h1
          cases h1
          rw [hpc] at h4
          exact absurd h4 (by simp [WinnerAt])
        · exact ⟨w0, o0, lookup_set_ne he h1, h2, h3, WinnerAt_congr rfl rfl rfl rfl h4⟩
    · cases h

theorem inv_onceDo {s s' : State E V} {i : Nat} (hI : Inv s)
    (h : step s (.onceDo i) = some s') : Inv s' := by
  simp only [step] at h
  split at h
  · cases h
  · rename_i w hw
    split at h
    · rename_i hpc
      have hnw : ∀ i0 w0 o0, s.gs[i0]? = some w0 → WinnerAt s o0 w0.pc → i0 ≠ i := by
        intro i0 w0 o0 h1 h4 he
        subst he
        rw [hw] at h1
        cases h1
        rw [hpc] at h4
        exact absurd h4 (by simp [WinnerAt])
      split at h
      · rename_i hf
        simp only [Option.some.injEq] at h
        subst h
        have hwn : s.winner = none := hI.fresh_iff.mp hf
        refine ⟨?_, ?_, ?_, ?_, ?_, ?_, ?_,
          hI.calls_eq, hI.returns_eq, hI.cancels_eq, hI.idle_calls, hI.passed_pos⟩
        · have := hI.wg_eq
          have hl : live (s.gs.set i { w with pc := .setErr }) = live s.gs :=
            live_set_same hw (by rw [hpc]; decide) (by simp)
          simp only [hl]; exact this
        · intro j x hx hp
          rcases lookup_set hx with ⟨_, rfl⟩ | ⟨_, hx⟩
          · cases hp
          · exact hI.atDo_failed j x hx hp
        · intro j x hx hp hfl
          rcases lookup_set hx with ⟨_, rfl⟩ | ⟨_, hx⟩
          · rcases hp with hp | hp <;> cases hp
          · have := hI.latched j x hx hp hfl
            rw [hf] at this; cases this
        · intro j x hx hp
          rcases lookup_set hx with ⟨rfl, rfl⟩ | ⟨_, hx⟩
          · rfl
          · have := hI.body_winner j x hx hp
            rw [hwn] at this; cases this
        · simp
        · intro hc; cases hc
        · intro i0 hi
          simp only [Option.some.injEq] at hi
          subst hi
          obtain ⟨o, ho, hfo⟩ := failed_out (hI.atDo_failed _ w hw hpc)
          obtain ⟨he, hl⟩ := hI.fresh_clean hf
          exact ⟨{ w with pc := .setErr }, o, lookup_set_self hw, ho, hfo, rfl, he, hl⟩
      · cases h
      · rename_i hd
        simp only [Option.some.injEq] at h
        subst h
        refine ⟨?_, ?_, ?_, ?_, hI.fresh_iff, hI.fresh_clean, ?_,
          hI.calls_eq, hI.returns_eq, hI.cancels_eq, hI.idle_calls, hI.passed_pos⟩
        · have := hI.wg_eq
          have hl : live (s.gs.set i { w with pc := .atDone }) = live s.gs :=
            live_set_same hw (by rw [hpc]; decide) (by simp)
          simp only [hl]; exact this
        · intro j x hx hp
          rcases lookup_set hx with ⟨_, rfl⟩ | ⟨_, hx⟩
          · cases hp
          · exact hI.atDo_failed j x hx hp
        · intro j x hx hp hfl
          rcases lookup_set hx with ⟨_, rfl⟩ | ⟨_, hx⟩
          · exact hd
          · exact hI.latched j x hx hp hfl
        · intro j x hx hp
          rcases lookup_set hx with ⟨_, rfl⟩ | ⟨_, hx⟩
          · cases hp
          · exact hI.body_winner j x hx hp
        · intro i0 hi
          obtain ⟨w0, o0, h1, h2, h3, h4⟩ := hI.winner_ok i0 hi
          exact ⟨w0, o0, lookup_set_ne (hnw i0 w0 o0 h1 h4) h1, h2, h3,
            WinnerAt_congr rfl rfl rfl rfl h4⟩
    · cases h

theorem inv_setErr {s s' : State E V} {i : Nat} {stack : List UInt8} (hI : Inv s)
    (h : step s (.setErr i stack) = some s') : Inv s' := by
  simp only [step] at h
  split at h
  · cases h
  · rename_i w hw
    split at h
    · rename_i hpc
      split at h
      · cases h
      · rename_i o ho
        simp only [Option.some.injEq] at h
        subst h
        have hwin : s.winner = some i := hI.body_winner i w hw (by rw [hpc]; rfl)
        obtain ⟨w0, o0, h1, h2, h3, h4⟩ := hI.winner_ok i hwin
        rw [hw] at h1
        cases h1
        rw [ho] at h2
        cases h2
        rw [hpc] at h4
        obtain ⟨hb, _, hlc⟩ := h4
        refine ⟨?_, ?_, ?_, ?_, hI.fresh_iff, ?_, ?_,
          hI.calls_eq, hI.returns_eq, hI.cancels_eq, hI.idle_calls, hI.passed_pos⟩
        · have := hI.wg_eq
          have hl : live (s.gs.set i { w with pc := .callCancel }) = live s.gs :=
            live_set_same hw (by rw [hpc]; decide) (by simp)
          simp only [hl]; exact this
        · intro j x hx hp
          rcases lookup_set hx with ⟨_, rfl⟩ | ⟨_, hx⟩
          · cases hp
          · exact hI.atDo_failed j x hx hp
        · intro j x hx hp hfl
          rcases lookup_set hx with ⟨_, rfl⟩ | ⟨_, hx⟩
          · rcases hp with hp | hp <;> cases hp
          · exact hI.latched j x hx hp hfl
        · intro j x hx hp
          rcases lookup_set hx with ⟨rfl, rfl⟩ | ⟨_, hx⟩
          · exact hwin
          · exact hI.body_winner j x hx hp
        · intro hc
          have hc' : s.errOnce = .fresh := hc
          rw [hb] at hc'; cases hc'
        · intro i0 hi
          have hi' : s.winner = some i0 := hi
          rw [hwin] at hi'
          cases hi'
          exact ⟨{ w with pc := .callCancel }, o, lookup_set_self hw, ho, h3, hb, ⟨stack, rfl⟩, hlc⟩
    · cases h

theorem inv_callCancel {s s' : State E V} {i : Nat} (hI : Inv s)
    (h : step s (.callCancel i) = some s') : Inv s' := by
  simp only [step] at h
  split at h
  · cases h
  · rename_i w hw
    split at h
    · rename_i hpc
      simp only [Option.some.injEq] at h
      subst h
      have hwin : s.winner = some i := hI.body_winner i w hw (by rw [hpc]; rfl)
      obtain ⟨w0, o, h1, ho, h3, h4⟩ := hI.winner_ok i hwin
      rw [hw] at h1
      cases h1
      rw [hpc] at h4
      obtain ⟨hb, hstk, hlc⟩ := h4
      refine ⟨?_, ?_, ?_, ?_, hI.fresh_iff, ?_, ?_,
        hI.calls_eq, hI.returns_eq, hI.cancels_eq, hI.idle_calls, hI.passed_pos⟩
      · have := hI.wg_eq
        have hl : live (s.gs.set i { w with pc := .leaveDo }) = live s.gs :=
          live_set_same hw (by rw [hpc]; decide) (by simp)
        simp only [hl]; exact this
      · intro j x hx hp
        rcases lookup_set hx with ⟨_, rfl⟩ | ⟨_, hx⟩
        · cases hp
        · exact hI.atDo_failed j x hx hp
      · intro j x hx hp hfl
        rcases lookup_set hx with ⟨_, rfl⟩ | ⟨_, hx⟩
        · rcases hp with hp | hp <;> cases hp
        · exact hI.latched j x hx hp hfl
      · intro j x hx hp
        rcases lookup_set hx with ⟨rfl, rfl⟩ | ⟨_, hx⟩
        · exact hwin
        · exact hI.body_winner j x hx hp
      · intro hc
        have hc' : s.errOnce = .fresh := hc
        rw [hb] at hc'; cases hc'
      · intro i0 hi
        have hi' : s.winner = some i0 := hi
        rw [hwin] at hi'
        cases hi'
        refine ⟨{ w with pc := .leaveDo }, o, lookup_set_self hw, ho, h3, hb, hstk, ?_⟩
        show (if s.cancel = true then s.latchCancels + 1 else s.latchCancels) =
          if s.cancel = true then 1 else 0
        rw [hlc]
    · cases h

theorem inv_leaveDo {s s' : State E V} {i : Nat} (hI : Inv s)
    (h : step s (.leaveDo i) = some s') : Inv s' := by
  simp only [step] at h
  split at h
  · cases h
  · rename_i w hw
    split at h
    · rename_i hpc
      simp only [Option.some.injEq] at h
      subst h
      have hwin : s.winner = some i := hI.body_winner i w hw (by rw [hpc]; rfl)
      obtain ⟨w0, o, h1, ho, h3, h4⟩ := hI.winner_ok i hwin
      rw [hw] at h1
      cases h1
      rw [hpc] at h4
      obtain ⟨hb, hstk, hlc⟩ := h4
      refine ⟨?_, ?_, ?_, ?_, ?_, ?_, ?_,
        hI.calls_eq, hI.returns_eq, hI.cancels_eq, hI.idle_calls, hI.passed_pos⟩
      · have := hI.wg_eq
        have hl : live (s.gs.set i { w with pc := .atDone }) = live s.gs :=
          live_set_same hw (by rw [hpc]; decide) (by simp)
        simp only [hl]; exact this
      · intro j x hx hp
        rcases lookup_set hx with ⟨_, rfl⟩ | ⟨_, hx⟩
        · cases hp
        · exact hI.atDo_failed j x hx hp
      · intro j x hx hp hfl
        rfl
      · intro j x hx hp
        rcases lookup_set hx with ⟨_, rfl⟩ | ⟨_, hx⟩
        · cases hp
        · exact hI.body_winner j x hx hp
      · show OnceState.done = OnceState.fresh ↔ s.winner = none
        rw [hwin]; simp
      · intro hc; cases hc
      · intro i0 hi
        have hi' : s.winner = some i0 := hi
        rw [hwin] at hi'
        cases hi'
        exact ⟨{ w with pc := .atDone }, o, lookup_set_self hw, ho, h3, rfl, hstk, hlc⟩
    · cases h

theorem inv_wgDone {s s' : State E V} {i : Nat} (hI : Inv s)
    (h : step s (.wgDone i) = some s') : Inv s' := by
  simp only [step] at h
  split at h
  · cases h
  · rename_i w hw
    split at h
    · rename_i hpc
      simp only [Option.some.injEq] at h
      subst h
      refine ⟨?_, ?_, ?_, ?_, hI.fresh_iff, hI.fresh_clean, ?_,
        hI.calls_eq, hI.returns_eq, hI.cancels_eq, hI.idle_calls, hI.passed_pos⟩
      · have := hI.wg_eq
        have hl := @live_set E V s.gs i w { w with pc := .exited } hw
        simp only [hpc, reduceCtorEq, if_false, if_true] at hl
        show s.wg - 1 = (s.spawning : Int) + (live (s.gs.set i { w with pc := .exited }) : Int)
        omega
      · intro j x hx hp
        rcases lookup_set hx with ⟨_, rfl⟩ | ⟨_, hx⟩
        · cases hp
        · exact hI.atDo_failed j x hx hp
      · intro j x hx hp hfl
        rcases lookup_set hx with ⟨_, rfl⟩ | ⟨_, hx⟩
        · exact hI.latched i w hw (Or.inl hpc) hfl
        · exact hI.latched j x hx hp hfl
      · intro j x hx hp
        rcases lookup_set hx with ⟨_, rfl⟩ | ⟨_, hx⟩
        · cases hp
        · exact hI.body_winner j x hx hp
      · intro i0 hi
        obtain ⟨w0, o0, h1, h2, h3, h4⟩ := hI.winner_ok i0 hi
        by_cases he : i0 = i
        · subst he
          rw [hw] at h1
          cases h1
          rw [hpc] at h4
          exact ⟨{ w with pc := .exited }, o0, lookup_set_self hw, h2, h3, h4⟩
        · exact ⟨w0, o0, lookup_set_ne he h1, h2, h3, WinnerAt_congr rfl rfl rfl rfl h4⟩
    · cases h

theorem inv_waitCall {s s' : State E V} {wo : ErrType} (hI : Inv s)
    (h : step s (.waitCall wo) = some s') : Inv s' := by
  have hw := hI.winner_ok
  have h1 := hI.calls_eq
  have h5 := hI.returns_eq
  have h2 := hI.cancels_eq
  have h3 := hI.idle_calls
  have h4 := hI.passed_pos
  simp only [step] at h
  split at h
  · rename_i hwt
    simp only [Option.some.injEq] at h
    subst h
    refine ⟨hI.wg_eq, hI.atDo_failed, hI.latched, hI.body_winner, hI.fresh_iff, hI.fresh_clean, ?_,
      ?_, ?_, ?_, ?_, ?_⟩
    · intro i hi
      obtain ⟨w, o, g1, g2, g3, g4⟩ := hw i hi
      exact ⟨w, o, g1, g2, g3, WinnerAt_congr rfl rfl rfl rfl g4⟩
    · simp only [hwt, Waiter.blocked] at h1 ⊢; omega
    · simp only [hwt, Waiter.inside] at h5 ⊢; exact h5
    · simp only [hwt, Waiter.beforeCancel] at h2 ⊢; exact h2
    · intro hc; cases hc
    · intro hc; cases hc
  · rename_i wo0 res hwt
    simp only [Option.some.injEq] at h
    subst h
    refine ⟨hI.wg_eq, hI.atDo_failed, hI.latched, hI.body_winner, hI.fresh_iff, hI.fresh_clean, ?_,
      ?_, ?_, ?_, ?_, ?_⟩
    · intro i hi
      obtain ⟨w, o, g1, g2, g3, g4⟩ := hw i hi
      exact ⟨w, o, g1, g2, g3, WinnerAt_congr rfl rfl rfl rfl g4⟩
    · simp only [hwt, Waiter.blocked] at h1 ⊢; omega
    · simp only [hwt, Waiter.inside] at h5 ⊢; exact h5
    · simp only [hwt, Waiter.beforeCancel] at h2 ⊢; exact h2
    · intro hc; cases hc
    · intro hc; cases hc
  · cases h

theorem inv_waitPass {s s' : State E V} (hI : Inv s)
    (h : step s .waitPass = some s') : Inv s' := by
  have hw := hI.winner_ok
  have h1 := hI.calls_eq
  have h5 := hI.returns_eq
  have h2 := hI.cancels_eq
  simp only [step] at h
  split at h
  · rename_i wo hwt
    split at h
    · simp only [Option.some.injEq] at h
      subst h
      refine ⟨hI.wg_eq, hI.atDo_failed, hI.latched, hI.body_winner, hI.fresh_iff, hI.fresh_clean,
        ?_, ?_, ?_, ?_, ?_, ?_⟩
      · intro i hi
        obtain ⟨w, o, g1, g2, g3, g4⟩ := hw i hi
        exact ⟨w, o, g1, g2, g3, WinnerAt_congr rfl rfl rfl rfl g4⟩
      · simp only [hwt, Waiter.blocked] at h1 ⊢; omega
      · simp only [hwt, Waiter.inside] at h5 ⊢; omega
      · simp only [hwt, Waiter.beforeCancel] at h2 ⊢
        split
        · rename_i hc; simp only [hc, if_true] at h2; omega
        · rename_i hc; simp only [hc] at h2; exact h2
      · intro hc; cases hc
      · intro _; show 0 < s.waitPasses + 1; omega
    · cases h
  · cases h

theorem inv_waitCancel {s s' : State E V} (hI : Inv s)
    (h : step s .waitCancel = some s') : Inv s' := by
  have hw := hI.winner_ok
  have h1 := hI.calls_eq
  have h5 := hI.returns_eq
  have h2 := hI.cancels_eq
  have h4 := hI.passed_pos
  simp only [step] at h
  split at h
  · rename_i wo hwt
    simp only [Option.some.injEq] at h
    subst h
    refine ⟨hI.wg_eq, hI.atDo_failed, hI.latched, hI.body_winner, hI.fresh_iff, hI.fresh_clean,
      ?_, ?_, ?_, ?_, ?_, ?_⟩
    · intro i hi
      obtain ⟨w, o, g1, g2, g3, g4⟩ := hw i hi
      exact ⟨w, o, g1, g2, g3, WinnerAt_congr rfl rfl rfl rfl g4⟩
    · simp only [hwt, Waiter.blocked] at h1 ⊢; exact h1
    · simp only [hwt, Waiter.inside] at h5 ⊢; exact h5
    · simp only [hwt, Waiter.beforeCancel] at h2 ⊢
      split
      · rename_i hc; simp only [hc, if_true] at h2 ⊢; omega
      · rename_i hc; simp only [hc] at h2 ⊢; exact h2
    · intro hc; cases hc
    · intro _; exact h4 (by rw [hwt]; rfl)
  · cases h

theorem inv_waitReturn {s s' : State E V} (hI : Inv s)
    (h : step s .waitReturn = some s') : Inv s' := by
  have hw := hI.winner_ok
  have h1 := hI.calls_eq
  have h5 := hI.returns_eq
  have h2 := hI.cancels_eq
  have h4 := hI.passed_pos
  simp only [step] at h
  split at h
  · rename_i wo hwt
    simp only [Option.some.injEq] at h
    subst h
    refine ⟨hI.wg_eq, hI.atDo_failed, hI.latched, hI.body_winner, hI.fresh_iff, hI.fresh_clean,
      ?_, ?_, ?_, ?_, ?_, ?_⟩
    · intro i hi
      obtain ⟨w, o, g1, g2, g3, g4⟩ := hw i hi
      exact ⟨w, o, g1, g2, g3, WinnerAt_congr rfl rfl rfl rfl g4⟩
    · simp only [hwt, Waiter.blocked] at h1 ⊢; exact h1
    · simp only [hwt, Waiter.inside] at h5 ⊢; omega
    · simp only [hwt, Waiter.beforeCancel] at h2 ⊢; exact h2
    · intro hc; cases hc
    · intro _; exact h4 (by rw [hwt]; rfl)
  · cases h

theorem step_inv {s s' : State E V} {a : Action E V} (hI : Inv s)
    (h : step s a = some s') : Inv s' := by
  cases a with
  | goAdd => exact inv_goAdd hI h
  | goSpawn => exact inv_goSpawn hI h
  | taskEnd i o => exact inv_taskEnd hI h
  | onceDo i => exact inv_onceDo hI h
  | setErr i stack => exact inv_setErr hI h
  | callCancel i => exact inv_callCancel hI h
  | leaveDo i => exact inv_leaveDo hI h
  | wgDone i => exact inv_wgDone hI h
  | waitCall wo => exact inv_waitCall hI h
  | waitPass => exact inv_waitPass hI h
  | waitCancel => exact inv_waitCancel hI h
  | waitReturn => exact inv_waitReturn hI h

theorem run_inv {s s' : State E V} {as : List (Action E V)} (hI : Inv s)
    (h : run s as = some s') : Inv s' := by
  induction as generalizing s with
  | nil =>
    simp only [run, Option.some.injEq] at h
    subst h; exact hI
  | cons a as ih =>
    simp only [run] at h
    cases hs : step s a with
    | none => rw [hs] at h; cases h
    | some s1 =>
      rw [hs] at h
      exact ih (step_inv hI hs) h

theorem reachable_inv {c : Bool} {s : State E V} (h : Reachable c s) : Inv s := by
  obtain ⟨as, has⟩ := h
  exact run_inv (inv_init c) has

/-! ## Consequences of the invariant -/

theorem live_zero_all {gs : List (Wrapper E V)} (h : live gs = 0) :
    ∀ (j : Nat) (w : Wrapper E V), gs[j]? = some w → w.pc = .exited := by
  induction gs with
  | nil => intro j w hw; simp at hw
  | cons a as ih =>
    simp only [live] at h
    intro j w hw
    cases j with
    | zero =>
      simp at hw
      subst hw
      by_contra hne
      simp only [hne, if_false] at h
      omega
    | succ k =>
      simp at hw
      exact ih (by omega) k w hw

theorem all_live_zero {gs : List (Wrapper E V)}
    (h : ∀ (j : Nat) (w : Wrapper E V), gs[j]? = some w → w.pc = .exited) : live gs = 0 := by
  induction gs with
  | nil => rfl
  | cons a as ih =>
    have ha : a.pc = .exited := h 0 a (by simp)
    have hr : live as = 0 := ih (fun j w hw => h (j + 1) w (by simpa using hw))
    simp only [live, ha, if_true, hr]

theorem wg_zero {s : State E V} (hI : Inv s) (h : s.wg = 0) :
    s.spawning = 0 ∧ ∀ (j : Nat) (w : Wrapper E V), s.gs[j]? = some w → w.pc = .exited := by
  have := hI.wg_eq
  have h0 : live s.gs = 0 := by omega
  exact ⟨by omega, live_zero_all h0⟩

theorem latchValue_failed {o : Outcome E V} (h : o.failed = true) (stk : List UInt8) :
    ∃ e, latchValue o stk = some e := by
  cases o with
  | returned err =>
    cases err with
    | none => simp [Outcome.failed] at h
    | some e => exact ⟨e, rfl⟩
  | panicked r => exact ⟨_, rfl⟩

/-- Once `errOnce.Do` has returned, the winner is past the function and `g.err`
holds the value it assigned. -/
theorem done_winner {s : State E V} (hI : Inv s) (h : s.errOnce = .done) :
    ∃ i w o stk, s.winner = some i ∧ s.gs[i]? = some w ∧ w.out = some o ∧ o.failed = true ∧
      s.err = latchValue o stk ∧ s.latchCancels = (if s.cancel then 1 else 0) := by
  cases hwin : s.winner with
  | none =>
    have := hI.fresh_iff.mpr hwin
    rw [h] at this; cases this
  | some i =>
    obtain ⟨w, o, h1, h2, h3, h4⟩ := hI.winner_ok i hwin
    cases hpc : w.pc with
    | callF => rw [hpc] at h4; exact h4.elim
    | atDo => rw [hpc] at h4; exact h4.elim
    | setErr => rw [hpc] at h4; have := h4.1; rw [h] at this; cases this
    | callCancel => rw [hpc] at h4; have := h4.1; rw [h] at this; cases this
    | leaveDo => rw [hpc] at h4; have := h4.1; rw [h] at this; cases this
    | atDone =>
      rw [hpc] at h4
      obtain ⟨_, ⟨stk, hs⟩, hl⟩ := h4
      exact ⟨i, w, o, stk, rfl, h1, h2, h3, hs, hl⟩
    | exited =>
      rw [hpc] at h4
      obtain ⟨_, ⟨stk, hs⟩, hl⟩ := h4
      exact ⟨i, w, o, stk, rfl, h1, h2, h3, hs, hl⟩

/-- Whenever `g.err` is non-nil it is the value assigned by the winner. -/
theorem err_winner {s : State E V} (hI : Inv s) {e : GoError E V} (h : s.err = some e) :
    ∃ i w o stk, s.winner = some i ∧ s.gs[i]? = some w ∧ w.out = some o ∧ o.failed = true ∧
      latchValue o stk = some e ∧ w.pc ≠ .setErr := by
  cases hwin : s.winner with
  | none =>
    have := (hI.fresh_clean (hI.fresh_iff.mpr hwin)).1
    rw [h] at this; cases this
  | some i =>
    obtain ⟨w, o, h1, h2, h3, h4⟩ := hI.winner_ok i hwin
    cases hpc : w.pc with
    | callF => rw [hpc] at h4; exact h4.elim
    | atDo => rw [hpc] at h4; exact h4.elim
    | setErr => rw [hpc] at h4; have := h4.2.1; rw [h] at this; cases this
    | callCancel =>
      rw [hpc] at h4
      obtain ⟨_, ⟨stk, hs⟩, _⟩ := h4
      exact ⟨i, w, o, stk, rfl, h1, h2, h3, by rw [← hs, h], by rw [hpc]; decide⟩
    | leaveDo =>
      rw [hpc] at h4
      obtain ⟨_, ⟨stk, hs⟩, _⟩ := h4
      exact ⟨i, w, o, stk, rfl, h1, h2, h3, by rw [← hs, h], by rw [hpc]; decide⟩
    | atDone =>
      rw [hpc] at h4
      obtain ⟨_, ⟨stk, hs⟩, _⟩ := h4
      exact ⟨i, w, o, stk, rfl, h1, h2, h3, by rw [← hs, h], by rw [hpc]; decide⟩
    | exited =>
      rw [hpc] at h4
      obtain ⟨_, ⟨stk, hs⟩, _⟩ := h4
      exact ⟨i, w, o, stk, rfl, h1, h2, h3, by rw [← hs, h], by rw [hpc]; decide⟩

/-- A failed wrapper that is at or past `wg.Done()` has its group latched. -/
theorem finished_failed_err {s : State E V} (hI : Inv s) {j : Nat} {w : Wrapper E V}
    (hw : s.gs[j]? = some w) (hp : w.pc = .atDone ∨ w.pc = .exited) (hf : w.failed = true) :
    s.errOnce = .done ∧ ∃ e, s.err = some e := by
  have hd := hI.latched j w hw hp hf
  obtain ⟨i, w0, o, stk, _, _, _, h3, h4, _⟩ := done_winner hI hd
  obtain ⟨e, he⟩ := latchValue_failed h3 stk
  exact ⟨hd, e, by rw [h4, he]⟩

/-! ## Fields that actions do not touch -/

theorem step_cancel {s s' : State E V} {a : Action E V} (h : step s a = some s') :
    s'.cancel = s.cancel := by
  cases a <;> simp only [step] at h <;> (repeat' split at h) <;> cases h <;> rfl

theorem run_cancel {s s' : State E V} {as : List (Action E V)} (h : run s as = some s') :
    s'.cancel = s.cancel := by
  induction as generalizing s with
  | nil =>
    simp only [run, Option.some.injEq] at h
    subst h; rfl
  | cons a as ih =>
    simp only [run] at h
    cases hs : step s a with
    | none => rw [hs] at h; cases h
    | some s1 =>
      rw [hs] at h
      rw [ih h, step_cancel hs]

theorem reachable_cancel {c : Bool} {s : State E V} (h : Reachable c s) : s.cancel = c := by
  obtain ⟨as, has⟩ := h
  exact run_cancel has

/-- The assignment to `g.err` happens only while it is nil. -/
theorem step_err_stable {s s' : State E V} {a : Action E V} (hI : Inv s)
    (h : step s a = some s') {e : GoError E V} (he : s.err = some e) : s'.err = some e := by
  cases a with
  | setErr i stack =>
    simp only [step] at h
    split at h
    · cases h
    · rename_i w hw
      split at h
      · rename_i hpc
        have hwin : s.winner = some i := hI.body_winner i w hw (by rw [hpc]; rfl)
        obtain ⟨w0, o0, h1, _, _, h4⟩ := hI.winner_ok i hwin
        rw [hw] at h1
        cases h1
        rw [hpc] at h4
        have := h4.2.1
        rw [he] at this
        cases this
      · cases h
  | _ =>
    simp only [step] at h
    (repeat' split at h) <;> cases h <;> exact he

/-! ## Running `Wait` to its end -/

theorem finishWait_eq {s : State E V} {wo : ErrType} (hw : s.waiter = .atBarrier wo)
    (h0 : s.wg = 0) :
    finishWait s = some { s with
      waiter := .finished wo (waitResult s.err wo),
      waitPasses := s.waitPasses + 1,
      waitCancels := if s.cancel then s.waitCancels + 1 else s.waitCancels,
      waitReturns := s.waitReturns + 1 } := by
  simp [finishWait, run, step, hw, h0]

theorem Wait_eq_finishWait {s : State E V} {wo : ErrType}
    (hw : s.waiter = .idle ∨ ∃ wo0 res, s.waiter = .finished wo0 res) :
    Wait s wo = finishWait { s with waiter := .atBarrier wo, waitCalls := s.waitCalls + 1 } := by
  rcases hw with hw | ⟨wo0, res, hw⟩ <;> simp [Wait, finishWait, run, step, hw]

/-! ## Schedules -/

theorem run_append (s : State E V) (as bs : List (Action E V)) :
    run s (as ++ bs) = (run s as).bind fun s1 => run s1 bs := by
  induction as generalizing s with
  | nil => rfl
  | cons a as ih =>
    simp only [List.cons_append, run]
    cases step s a with
    | none => rfl
    | some s1 => exact ih s1

theorem run_err_stable {s s' : State E V} {as : List (Action E V)} (hI : Inv s)
    (h : run s as = some s') {e : GoError E V} (he : s.err = some e) : s'.err = some e := by
  induction as generalizing s with
  | nil =>
    simp only [run, Option.some.injEq] at h
    subst h; exact he
  | cons a as ih =>
    simp only [run] at h
    cases hs : step s a with
    | none => rw [hs] at h; cases h
    | some s1 =>
      rw [hs] at h
      exact ih (step_inv hI hs) h (step_err_stable hI hs he)

theorem waitResult_some (e : GoError E V) (wo : ErrType) :
    waitResult (some e) wo = .returned (some e) ∨
      ∃ p, e = .panicError p ∧ waitResult (some e) wo = .panicked p := by
  unfold waitResult
  by_cases h1 : wo = Error
  · left; simp [h1]
  · by_cases h2 : wo = Panic
    · subst h2
      cases e with
      | plain x => left; simp [h1]
      | panicError p => right; exact ⟨p, rfl, by simp [h1]⟩
    · left; simp [h1, h2]

/-- No wrapper has failed: the latch is untouched. -/
theorem no_failure_fresh {s : State E V} (hI : Inv s)
    (hok : ∀ (j : Nat) (w : Wrapper E V), s.gs[j]? = some w → w.failed = false) :
    s.errOnce = .fresh ∧ s.err = none ∧ s.latchCancels = 0 := by
  have hwin : s.winner = none := by
    cases hw : s.winner with
    | none => rfl
    | some i =>
      obtain ⟨w, o, h1, h2, h3, _⟩ := hI.winner_ok i hw
      have := hok i w h1
      simp only [Wrapper.failed, h2, h3] at this
      cases this
  have hf := hI.fresh_iff.mpr hwin
  exact ⟨hf, hI.fresh_clean hf⟩

/-! ## The first call of `errOnce.Do` -/

theorem step_winner_some {s s' : State E V} {a : Action E V} (hI : Inv s)
    (h : step s a = some s') {i : Nat} (hw : s.winner = some i) : s'.winner = some i := by
  cases a with
  | onceDo j =>
    simp only [step] at h
    split at h
    · cases h
    · split at h
      · split at h
        · rename_i hf
          have := hI.fresh_iff.mp hf
          rw [hw] at this; cases this
        · cases h
        · cases h; exact hw
      · cases h
  | _ =>
    simp only [step] at h
    (repeat' split at h) <;> cases h <;> exact hw

theorem step_winner_none {s s' : State E V} {a : Action E V} (hI : Inv s)
    (h : step s a = some s') (hw : s.winner = none) : s'.winner = firstDo [a] := by
  cases a with
  | onceDo j =>
    simp only [step] at h
    split at h
    · cases h
    · split at h
      · split at h
        · cases h; rfl
        · cases h
        · rename_i hd
          have := hI.fresh_iff.mpr hw
          rw [hd] at this; cases this
      · cases h
  | _ =>
    simp only [step] at h
    (repeat' split at h) <;> cases h <;> exact hw

theorem run_winner_some {s s' : State E V} {as : List (Action E V)} (hI : Inv s)
    (h : run s as = some s') {i : Nat} (hw : s.winner = some i) : s'.winner = some i := by
  induction as generalizing s with
  | nil =>
    simp only [run, Option.some.injEq] at h
    subst h; exact hw
  | cons a as ih =>
    simp only [run] at h
    cases hs : step s a with
    | none => rw [hs] at h; cases h
    | some s1 =>
      rw [hs] at h
      exact ih (step_inv hI hs) h (step_winner_some hI hs hw)

theorem run_winner_none {s s' : State E V} {as : List (Action E V)} (hI : Inv s)
    (h : run s as = some s') (hw : s.winner = none) : s'.winner = firstDo as := by
  induction as generalizing s with
  | nil =>
    simp only [run, Option.some.injEq] at h
    subst h; exact hw
  | cons a as ih =>
    simp only [run] at h
    cases hs : step s a with
    | none => rw [hs] at h; cases h
    | some s1 =>
      rw [hs] at h
      have h1 := step_winner_none hI hs hw
      cases a with
      | onceDo j =>
        simp only [firstDo] at h1 ⊢
        exact run_winner_some (step_inv hI hs) h h1
      | _ =>
        simp only [firstDo] at h1 ⊢
        exact ih (step_inv hI hs) h h1

/-! ## Counting the invocations of the cancel function -/

theorem beforeCancel_le_inside (w : Waiter E V) : w.beforeCancel ≤ w.inside := by
  cases w <;> simp [Waiter.beforeCancel, Waiter.inside]

theorem latchCancels_cases {s : State E V} (hI : Inv s) :
    s.latchCancels = 0 ∨ (s.cancel = true ∧ s.latchCancels = 1 ∧ s.errOnce ≠ .fresh) := by
  cases hwin : s.winner with
  | none => left; exact (hI.fresh_clean (hI.fresh_iff.mpr hwin)).2
  | some i =>
    have hnf : s.errOnce ≠ .fresh := by
      intro hf
      have := hI.fresh_iff.mp hf
      rw [hwin] at this; cases this
    obtain ⟨w, o, _, _, _, h4⟩ := hI.winner_ok i hwin
    have hc : s.latchCancels = 0 ∨ s.latchCancels = (if s.cancel then 1 else 0) := by
      cases hpc : w.pc with
      | callF => rw [hpc] at h4; exact h4.elim
      | atDo => rw [hpc] at h4; exact h4.elim
      | setErr => rw [hpc] at h4; exact Or.inl h4.2.2
      | callCancel => rw [hpc] at h4; exact Or.inl h4.2.2
      | leaveDo => rw [hpc] at h4; exact Or.inr h4.2.2
      | atDone => rw [hpc] at h4; exact Or.inr h4.2.2
      | exited => rw [hpc] at h4; exact Or.inr h4.2.2
    rcases hc with hc | hc
    · exact Or.inl hc
    · cases hcan : s.cancel with
      | false => left; rw [hc, hcan]; rfl
      | true => right; exact ⟨rfl, by rw [hc, hcan]; rfl, hnf⟩

/-! ## Groups without a cancel function -/

theorem step_forget (s : State E V) (a : Action E V) :
    step (forget s) a = (step s a).map forget := by
  cases a <;> simp only [step, forget] <;> (repeat' split) <;> simp_all [forget]

theorem run_forget (s : State E V) (as : List (Action E V)) :
    run (forget s) as = (run s as).map forget := by
  induction as generalizing s with
  | nil => rfl
  | cons a as ih =>
    simp only [run, step_forget]
    cases step s a with
    | none => rfl
    | some s1 => exact ih s1

/-! ## Progress of a wrapper -/

theorem Reach.refl (s : State E V) : Reach s s := ⟨[], by simp, rfl⟩

theorem Reach.head {s s1 s2 : State E V} {a : Action E V} (h : step s a = some s1)
    (ha : a.afterTask = true) (h' : Reach s1 s2) : Reach s s2 := by
  obtain ⟨as, hl, has⟩ := h'
  refine ⟨a :: as, ?_, by simp [run, h, has]⟩
  intro b hb
  rcases List.mem_cons.mp hb with rfl | hb
  · exact ha
  · exact hl b hb

theorem Reach.trans {s s1 s2 : State E V} (h : Reach s s1) (h' : Reach s1 s2) : Reach s s2 := by
  obtain ⟨as, hla, has⟩ := h
  obtain ⟨bs, hlb, hbs⟩ := h'
  refine ⟨as ++ bs, ?_, by rw [run_append, has]; exact hbs⟩
  intro b hb
  rcases List.mem_append.mp hb with hb | hb
  · exact hla b hb
  · exact hlb b hb

theorem Reach.inv {s s' : State E V} (h : Reach s s') (hI : Inv s) : Inv s' := by
  obtain ⟨as, _, has⟩ := h
  exact run_inv hI has

theorem fin_atDone {s : State E V} {i : Nat} {w : Wrapper E V} (hw : s.gs[i]? = some w)
    (hpc : w.pc = .atDone) :
    ∃ s', Reach s s' ∧ s'.gs[i]? = some { w with pc := .exited } ∧ s'.wg = s.wg - 1 := by
  refine ⟨{ s with wg := s.wg - 1, gs := s.gs.set i { w with pc := .exited } }, ?_, ?_, rfl⟩
  · exact @Reach.head E V _ _ _ (.wgDone i) (by simp [step, hw, hpc]) rfl (Reach.refl _)
  · exact lookup_set_self hw

theorem fin_leaveDo {s : State E V} {i : Nat} {w : Wrapper E V} (hw : s.gs[i]? = some w)
    (hpc : w.pc = .leaveDo) :
    ∃ s', Reach s s' ∧ s'.gs[i]? = some { w with pc := .exited } ∧ s'.wg = s.wg - 1 := by
  have h1 : step s (.leaveDo i) =
      some { s with errOnce := .done, gs := s.gs.set i { w with pc := .atDone } } := by
    simp [step, hw, hpc]
  obtain ⟨s', hr, hs', hg⟩ :=
    @fin_atDone E V
      ({ s with errOnce := .done, gs := s.gs.set i { w with pc := .atDone } })
      i ({ w with pc := .atDone }) (lookup_set_self hw) rfl
  exact ⟨s', Reach.head h1 rfl hr, hs', hg⟩

theorem fin_callCancel {s : State E V} {i : Nat} {w : Wrapper E V} (hw : s.gs[i]? = some w)
    (hpc : w.pc = .callCancel) :
    ∃ s', Reach s s' ∧ s'.gs[i]? = some { w with pc := .exited } ∧ s'.wg = s.wg - 1 := by
  have h1 : step s (.callCancel i) =
      some { s with latchCancels := if s.cancel then s.latchCancels + 1 else s.latchCancels,
                    gs := s.gs.set i { w with pc := .leaveDo } } := by
    simp [step, hw, hpc]
  obtain ⟨s', hr, hs', hg⟩ :=
    @fin_leaveDo E V
      ({ s with latchCancels := if s.cancel then s.latchCancels + 1 else s.latchCancels,
                     gs := s.gs.set i { w with pc := .leaveDo } })
      i ({ w with pc := .leaveDo }) (lookup_set_self hw) rfl
  exact ⟨s', Reach.head h1 rfl hr, hs', hg⟩

theorem fin_setErr {s : State E V} {i : Nat} {w : Wrapper E V} {o : Outcome E V}
    (hw : s.gs[i]? = some w) (hpc : w.pc = .setErr) (ho : w.out = some o) :
    ∃ s', Reach s s' ∧ s'.gs[i]? = some { w with pc := .exited } ∧ s'.wg = s.wg - 1 := by
  have h1 : step s (.setErr i []) =
      some { s with err := latchValue o [], gs := s.gs.set i { w with pc := .callCancel } } := by
    simp [step, hw, hpc, ho]
  obtain ⟨s', hr, hs', hg⟩ :=
    @fin_callCancel E V
      ({ s with err := latchValue o [], gs := s.gs.set i { w with pc := .callCancel } })
      i ({ w with pc := .callCancel }) (lookup_set_self hw) rfl
  exact ⟨s', Reach.head h1 rfl hr, hs', hg⟩

/-- The wrapper inside the function run by `errOnce.Do` can leave it; the
other wrappers are not touched. -/
theorem body_done {s : State E V} {j : Nat} {w : Wrapper E V} {o : Outcome E V}
    (hw : s.gs[j]? = some w) (hb : inBody w.pc = true) (ho : w.out = some o) :
    ∃ s', Reach s s' ∧ s'.errOnce = .done ∧ s'.wg = s.wg ∧
      ∀ k, k ≠ j → s'.gs[k]? = s.gs[k]? := by
  have leave : ∀ (t : State E V) (x : Wrapper E V), t.gs[j]? = some x → x.pc = .leaveDo →
      ∃ t', Reach t t' ∧ t'.errOnce = .done ∧ t'.wg = t.wg ∧
        ∀ k, k ≠ j → t'.gs[k]? = t.gs[k]? := by
    intro t x hx hp
    refine ⟨{ t with errOnce := .done, gs := t.gs.set j { x with pc := .atDone } }, ?_, rfl, rfl, ?_⟩
    · exact @Reach.head E V _ _ _ (.leaveDo j) (by simp [step, hx, hp]) rfl (Reach.refl _)
    · intro k hk
      exact List.getElem?_set_ne (fun e => hk e.symm)
  have cancel : ∀ (t : State E V) (x : Wrapper E V), t.gs[j]? = some x → x.pc = .callCancel →
      ∃ t', Reach t t' ∧ t'.errOnce = .done ∧ t'.wg = t.wg ∧
        ∀ k, k ≠ j → t'.gs[k]? = t.gs[k]? := by
    intro t x hx hp
    have h1 : step t (.callCancel j) =
        some { t with latchCancels := if t.cancel then t.latchCancels + 1 else t.latchCancels,
                      gs := t.gs.set j { x with pc := .leaveDo } } := by
      simp [step, hx, hp]
    obtain ⟨t', hr, hd, hg, hk⟩ :=
      leave { t with latchCancels := if t.cancel then t.latchCancels + 1 else t.latchCancels,
                     gs := t.gs.set j { x with pc := .leaveDo } }
        { x with pc := .leaveDo } (lookup_set_self hx) rfl
    refine ⟨t', Reach.head h1 rfl hr, hd, hg, ?_⟩
    intro k hne
    rw [hk k hne]
    exact List.getElem?_set_ne (fun e => hne e.symm)
  cases hpc : w.pc with
  | setErr =>
    have h1 : step s (.setErr j []) =
        some { s with err := latchValue o [], gs := s.gs.set j { w with pc := .callCancel } } := by
      simp [step, hw, hpc, ho]
    obtain ⟨t', hr, hd, hg, hk⟩ :=
      cancel { s with err := latchValue o [], gs := s.gs.set j { w with pc := .callCancel } }
        { w with pc := .callCancel } (lookup_set_self hw) rfl
    refine ⟨t', Reach.head h1 rfl hr, hd, hg, ?_⟩
    intro k hne
    rw [hk k hne]
    exact List.getElem?_set_ne (fun e => hne e.symm)
  | callCancel => exact cancel s w hw hpc
  | leaveDo => exact leave s w hw hpc
  | callF => rw [hpc] at hb; cases hb
  | atDo => rw [hpc] at hb; cases hb
  | atDone => rw [hpc] at hb; cases hb
  | exited => rw [hpc] at hb; cases hb

theorem fin_atDo_done {s : State E V} {i : Nat} {w : Wrapper E V} (hw : s.gs[i]? = some w)
    (hpc : w.pc = .atDo) (hd : s.errOnce = .done) :
    ∃ s', Reach s s' ∧ s'.gs[i]? = some { w with pc := .exited } ∧ s'.wg = s.wg - 1 := by
  have h1 : step s (.onceDo i) = some { s with gs := s.gs.set i { w with pc := .atDone } } := by
    simp [step, hw, hpc, hd]
  obtain ⟨s', hr, hs', hg⟩ :=
    @fin_atDone E V
      ({ s with gs := s.gs.set i { w with pc := .atDone } })
      i ({ w with pc := .atDone }) (lookup_set_self hw) rfl
  exact ⟨s', Reach.head h1 rfl hr, hs', hg⟩

/-- Every wrapper whose task has ended can run to its end, whatever the other
goroutines have done: the wrapper is never blocked for good. -/
theorem wrapper_finishes {s : State E V} (hI : Inv s) {i : Nat} {w : Wrapper E V}
    (hw : s.gs[i]? = some w) (hpc : w.pc ≠ .callF) :
    ∃ s', Reach s s' ∧ s'.gs[i]? = some { w with pc := .exited } ∧
      s'.wg = s.wg - (if w.pc = .exited then 0 else 1) := by
  cases hp : w.pc with
  | callF => exact absurd hp hpc
  | exited =>
    refine ⟨s, Reach.refl s, ?_, by simp⟩
    rw [hw]
    cases w
    simp only at hp
    subst hp
    rfl
  | atDone => simpa using fin_atDone hw hp
  | leaveDo => simpa using fin_leaveDo hw hp
  | callCancel => simpa using fin_callCancel hw hp
  | setErr =>
    have hwin := hI.body_winner i w hw (by rw [hp]; rfl)
    obtain ⟨w0, o, h1, h2, _, _⟩ := hI.winner_ok i hwin
    rw [hw] at h1
    cases h1
    simpa using fin_setErr hw hp h2
  | atDo =>
    obtain ⟨o, ho, _⟩ := failed_out (hI.atDo_failed i w hw hp)
    cases hon : s.errOnce with
    | fresh =>
      have h1 : step s (.onceDo i) =
          some { s with errOnce := .busy, winner := some i,
                        gs := s.gs.set i { w with pc := .setErr } } := by
        simp [step, hw, hp, hon]
      obtain ⟨s', hr, hs', hg⟩ :=
        @fin_setErr E V
          ({ s with errOnce := .busy, winner := some i,
                    gs := s.gs.set i { w with pc := .setErr } })
          i ({ w with pc := .setErr }) o (lookup_set_self hw) rfl ho
      exact ⟨s', Reach.head h1 rfl hr, hs', by simpa using hg⟩
    | done => simpa using fin_atDo_done hw hp hon
    | busy =>
      cases hwin : s.winner with
      | none =>
        have := hI.fresh_iff.mpr hwin
        rw [hon] at this; cases this
      | some j =>
        obtain ⟨wj, oj, g1, g2, _, g4⟩ := hI.winner_ok j hwin
        have hbody : inBody wj.pc = true := by
          cases hq : wj.pc with
          | callF => rw [hq] at g4; exact g4.elim
          | atDo => rw [hq] at g4; exact g4.elim
          | setErr => rfl
          | callCancel => rfl
          | leaveDo => rfl
          | atDone => rw [hq] at g4; have := g4.1; rw [hon] at this; cases this
          | exited => rw [hq] at g4; have := g4.1; rw [hon] at this; cases this
        have hne : i ≠ j := by
          intro e
          subst e
          rw [hw] at g1
          cases g1
          rw [hp] at hbody
          cases hbody
        obtain ⟨s1, hr1, hd1, hg1, hk1⟩ := body_done g1 hbody g2
        have hw1 : s1.gs[i]? = some w := by rw [hk1 i hne]; exact hw
        obtain ⟨s', hr, hs', hg⟩ := fin_atDo_done hw1 hp hd1
        exact ⟨s', Reach.trans hr1 hr, hs', by rw [hg, hg1]; simp⟩

/-! ## Draining the group -/

theorem step_afterTask_quiet {s s' : State E V} {a : Action E V} (h : step s a = some s')
    (ha : a.afterTask = true) :
    s'.spawning = s.spawning ∧ s'.waiter = s.waiter ∧ (AllEnded s → AllEnded s') := by
  cases a with
  | onceDo i =>
    simp only [step] at h
    split at h
    · cases h
    · split at h
      · split at h
        · cases h
          refine ⟨rfl, rfl, ?_⟩
          intro hall j x hx
          rcases lookup_set hx with ⟨_, rfl⟩ | ⟨_, hx⟩
          · simp
          · exact hall j x hx
        · cases h
        · cases h
          refine ⟨rfl, rfl, ?_⟩
          intro hall j x hx
          rcases lookup_set hx with ⟨_, rfl⟩ | ⟨_, hx⟩
          · simp
          · exact hall j x hx
      · cases h
  | setErr i stack =>
    simp only [step] at h
    split at h
    · cases h
    · split at h
      · split at h
        · cases h
        · cases h
          refine ⟨rfl, rfl, ?_⟩
          intro hall j x hx
          rcases lookup_set hx with ⟨_, rfl⟩ | ⟨_, hx⟩
          · simp
          · exact hall j x hx
      · cases h
  | callCancel i =>
    simp only [step] at h
    split at h
    · cases h
    · split at h
      · cases h
        refine ⟨rfl, rfl, ?_⟩
        intro hall j x hx
        rcases lookup_set hx with ⟨_, rfl⟩ | ⟨_, hx⟩
        · simp
        · exact hall j x hx
      · cases h
  | leaveDo i =>
    simp only [step] at h
    split at h
    · cases h
    · split at h
      · cases h
        refine ⟨rfl, rfl, ?_⟩
        intro hall j x hx
        rcases lookup_set hx with ⟨_, rfl⟩ | ⟨_, hx⟩
        · simp
        · exact hall j x hx
      · cases h
  | wgDone i =>
    simp only [step] at h
    split at h
    · cases h
    · split at h
      · cases h
        refine ⟨rfl, rfl, ?_⟩
        intro hall j x hx
        rcases lookup_set hx with ⟨_, rfl⟩ | ⟨_, hx⟩
        · simp
        · exact hall j x hx
      · cases h
  | goAdd => cases ha
  | goSpawn => cases ha
  | taskEnd i o => cases ha
  | waitCall wo => cases ha
  | waitPass => cases ha
  | waitCancel => cases ha
  | waitReturn => cases ha

theorem Reach.quiet {s s' : State E V} (h : Reach s s') :
    s'.spawning = s.spawning ∧ s'.waiter = s.waiter ∧ (AllEnded s → AllEnded s') := by
  obtain ⟨as, hl, has⟩ := h
  induction as generalizing s with
  | nil =>
    simp only [run, Option.some.injEq] at has
    subst has
    exact ⟨rfl, rfl, id⟩
  | cons a as ih =>
    simp only [run] at has
    cases hs : step s a with
    | none => rw [hs] at has; cases has
    | some s1 =>
      rw [hs] at has
      obtain ⟨h1, h2, h3⟩ := step_afterTask_quiet hs (hl a (List.mem_cons_self a as))
      obtain ⟨g1, g2, g3⟩ := ih (fun b hb => hl b (List.mem_cons_of_mem a hb)) has
      exact ⟨by rw [g1, h1], by rw [g2, h2], fun hall => g3 (h3 hall)⟩

theorem live_pos_exists {gs : List (Wrapper E V)} (h : 0 < live gs) :
    ∃ (j : Nat) (w : Wrapper E V), gs[j]? = some w ∧ w.pc ≠ .exited := by
  by_contra hne
  have hall : ∀ (j : Nat) (w : Wrapper E V), gs[j]? = some w → w.pc = .exited := by
    intro j w hw
    by_contra hp
    exact hne ⟨j, w, hw, hp⟩
  have := all_live_zero hall
  omega

/-- When no `Go` call is under way and every task has ended, the wrappers can
run on, by themselves, until the counter is zero. -/
theorem drain {s : State E V} (hI : Inv s) (hsp : s.spawning = 0) (hall : AllEnded s) :
    ∃ s', Reach s s' ∧ s'.wg = 0 ∧ s'.waiter = s.waiter := by
  generalize hn : live s.gs = n
  induction n generalizing s with
  | zero =>
    have := hI.wg_eq
    exact ⟨s, Reach.refl s, by omega, rfl⟩
  | succ n ih =>
    obtain ⟨j, w, hw, hpc⟩ := live_pos_exists (by omega : 0 < live s.gs)
    obtain ⟨s1, hr1, _, hg1⟩ := wrapper_finishes hI hw (hall j w hw)
    simp only [hpc, if_false] at hg1
    have hI1 := hr1.inv hI
    obtain ⟨q1, q2, q3⟩ := hr1.quiet
    have hw0 := hI.wg_eq
    have hw1 := hI1.wg_eq
    obtain ⟨s', hr', h0, hwt⟩ := ih hI1 (by rw [q1, hsp]) (q3 hall) (by omega)
    exact ⟨s', Reach.trans hr1 hr', h0, by rw [hwt, q2]⟩

/-! ## The concrete schedules run -/

theorem boomState_reachable (wo : ErrType) : Reachable false (boomState wo) :=
  ⟨boomTrace wo, rfl⟩

theorem errState_reachable (wo : ErrType) : Reachable true (errState wo) := ⟨errTrace wo, rfl⟩

theorem returnedPanicErrorState_reachable : Reachable false returnedPanicErrorState :=
  ⟨returnedPanicErrorTrace, rfl⟩

theorem failThenWaitState_reachable : Reachable true failThenWaitState :=
  ⟨failThenWaitTrace, rfl⟩

theorem mixedState_reachable : Reachable false mixedState := ⟨mixedTrace, rfl⟩

/-! ## C1: mode fidelity for a panicking task -/

/-- C1 (mode fidelity for a panicking task).  In a reachable state where the
task of wrapper `i` panicked with the non-nil payload `r`, wrapper `i` is the one
whose `errOnce.Do` call ran the function, all wrappers have ended (`wg = 0`) and a
`Wait(wo)` call is at its barrier: `g.err` is a `*PanicError` with `R = r` and
the stack captured by the wrapper, the `Wait` call runs to its end, under
`wo = Error` it returns that `*PanicError` as an error, and under `wo = Panic`
it panics with that same `*PanicError`. -/
theorem C1_mode_fidelity (c : Bool) (s : State E V) (i : Nat) (w : Wrapper E V) (r : V)
    (wo : ErrType) (hr : Reachable c s) (hw : s.gs[i]? = some w)
    (hout : w.out = some (.panicked (some r))) (hwin : s.winner = some i)
    (hwait : s.waiter = .atBarrier wo) (hwg : s.wg = 0) :
    ∃ stack s', s.err = some (.panicError (some { R := some r, Stack := stack })) ∧
      finishWait s = some s' ∧
      (wo = Error → s'.waiter =
        .finished wo (.returned (some (.panicError (some { R := some r, Stack := stack }))))) ∧
      (wo = Panic → s'.waiter = .finished wo (.panicked (some { R := some r, Stack := stack }))) := by
  have hI := reachable_inv hr
  obtain ⟨w0, o, h1, h2, _, h4⟩ := hI.winner_ok i hwin
  rw [hw] at h1
  cases h1
  rw [hout] at h2
  cases h2
  have hpc : w.pc = .exited := (wg_zero hI hwg).2 i w hw
  rw [hpc] at h4
  obtain ⟨_, ⟨stack, hs⟩, _⟩ := h4
  have herr : s.err = some (.panicError (some { R := some r, Stack := stack })) := hs
  refine ⟨stack, _, herr, finishWait_eq hwait hwg, ?_, ?_⟩
  · intro hwo
    subst hwo
    simp [herr, waitResult]
  · intro hwo
    subst hwo
    simp [herr, waitResult, Panic, Error]

/-- C1 at `boomState Panic`: one task panicked with `"boom"`, its wrapper has
ended and `Wait(Panic)` is at the barrier. -/
theorem C1_mode_fidelity_witness :
    (Reachable false (boomState Panic) ∧
      (boomState Panic).gs[0]? = some { out := some (.panicked (some "boom")), pc := .exited } ∧
      (boomState Panic).winner = some 0 ∧ (boomState Panic).waiter = .atBarrier Panic ∧
      (boomState Panic).wg = 0) ∧
    ∃ stack s',
      (boomState Panic).err = some (.panicError (some { R := some "boom", Stack := stack })) ∧
      finishWait (boomState Panic) = some s' ∧
      (Panic = Error → s'.waiter =
        .finished Panic (.returned (some (.panicError (some { R := some "boom", Stack := stack }))))) ∧
      (Panic = Panic → s'.waiter =
        .finished Panic (.panicked (some { R := some "boom", Stack := stack }))) :=
  ⟨⟨boomState_reachable Panic, rfl, rfl, rfl, rfl⟩,
    C1_mode_fidelity false (boomState Panic) 0
      { out := some (.panicked (some "boom")), pc := .exited } "boom" Panic
      (boomState_reachable Panic) rfl rfl rfl rfl rfl⟩

/-! ## C2: returned errors under `Panic` -/

/-- C2, counterexample.  A task returns the `*PanicError` value
`&PanicError{R: "mine"}` as its error and does not panic; that value is
latched; `Wait(Panic)` then panics with it instead of returning it. -/
theorem C2_counterexample :
    run zeroGroup returnedPanicErrorTrace = some returnedPanicErrorState ∧
    returnedPanicErrorState.gs[0]? =
      some { out := some (.returned (some (.panicError (some { R := some "mine", Stack := [] })))),
             pc := .exited } ∧
    returnedPanicErrorState.winner = some 0 ∧
    returnedPanicErrorState.err = some (.panicError (some { R := some "mine", Stack := [] })) ∧
    (finishWait returnedPanicErrorState).map (fun s => s.waiter) =
      some (.finished Panic (.panicked (some { R := some "mine", Stack := [] }))) :=
  ⟨rfl, rfl, rfl, rfl, rfl⟩

/-- C2, amended.  In a reachable state where wrapper `i` is the one whose
`errOnce.Do` call ran the function, all wrappers have ended and `Wait(Panic)` is
at its barrier, the call runs to its end and:
* if the task of `i` returned an error whose dynamic type is not `*PanicError`,
  `Wait(Panic)` returns that error;
* `Wait(Panic)` panics exactly when `g.err` has dynamic type `*PanicError`, and
  then it panics with that value;
* `g.err` has dynamic type `*PanicError` exactly when the task of `i` panicked
  or returned a `*PanicError`. -/
theorem C2_panic_mode_by_dynamic_type (c : Bool) (s : State E V) (i : Nat) (w : Wrapper E V)
    (hr : Reachable c s) (hw : s.gs[i]? = some w) (hwin : s.winner = some i)
    (hwait : s.waiter = .atBarrier Panic) (hwg : s.wg = 0) :
    ∃ s' res, finishWait s = some s' ∧ s'.waiter = .finished Panic res ∧
      (∀ x, w.out = some (.returned (some (.plain x))) → res = .returned (some (.plain x))) ∧
      (∀ p, res = .panicked p ↔ s.err = some (.panicError p)) ∧
      ((∃ p, s.err = some (.panicError p)) ↔
        ((∃ r, w.out = some (.panicked (some r))) ∨
          ∃ p, w.out = some (.returned (some (.panicError p))))) := by
  have hI := reachable_inv hr
  obtain ⟨w0, o, h1, h2, h3, h4⟩ := hI.winner_ok i hwin
  rw [hw] at h1
  cases h1
  have hpc : w.pc = .exited := (wg_zero hI hwg).2 i w hw
  rw [hpc] at h4
  obtain ⟨_, ⟨stack, hs⟩, _⟩ := h4
  refine ⟨_, waitResult s.err Panic, finishWait_eq hwait hwg, rfl, ?_, ?_, ?_⟩
  · intro x hx
    rw [h2] at hx
    cases hx
    rw [hs]
    simp [latchValue, waitResult, Panic, Error]
  · intro p
    cases he : s.err with
    | none => simp [waitResult]
    | some e =>
      cases e with
      | plain x => simp [waitResult, Panic, Error]
      | panicError q => simp [waitResult, Panic, Error]
  · rw [hs, h2]
    cases o with
    | returned err =>
      cases err with
      | none => simp [Outcome.failed] at h3
      | some e =>
        cases e with
        | plain x => simp [latchValue]
        | panicError q => simp [latchValue]
    | panicked r =>
      cases r with
      | none => simp [Outcome.failed] at h3
      | some v => simp [latchValue]

/-- C2, amended, at `errState Panic`: the task returned the plain error `"e1"`
and `Wait(Panic)` is at the barrier. -/
theorem C2_panic_mode_by_dynamic_type_witness :
    (Reachable true (errState Panic) ∧
      (errState Panic).gs[0]? =
        some { out := some (.returned (some (.plain "e1"))), pc := .exited } ∧
      (errState Panic).winner = some 0 ∧ (errState Panic).waiter = .atBarrier Panic ∧
      (errState Panic).wg = 0) ∧
    ∃ s' res, finishWait (errState Panic) = some s' ∧ s'.waiter = .finished Panic res ∧
      (∀ x, (some (Outcome.returned (some (GoError.plain "e1"))) : Option (Outcome String String)) =
        some (.returned (some (.plain x))) → res = .returned (some (.plain x))) ∧
      (∀ p, res = .panicked p ↔ (errState Panic).err = some (.panicError p)) ∧
      ((∃ p, (errState Panic).err = some (.panicError p)) ↔
        ((∃ r, (some (Outcome.returned (some (GoError.plain "e1"))) :
            Option (Outcome String String)) = some (.panicked (some r))) ∨
          ∃ p, (some (Outcome.returned (some (GoError.plain "e1"))) :
            Option (Outcome String String)) = some (.returned (some (.panicError p))))) :=
  ⟨⟨errState_reachable Panic, rfl, rfl, rfl, rfl⟩,
    C2_panic_mode_by_dynamic_type true (errState Panic) 0
      { out := some (.returned (some (.plain "e1"))), pc := .exited }
      (errState_reachable Panic) rfl rfl rfl rfl⟩

/-! ## C3: first failure wins -/

/-- C3, counterexample.  Two tasks are submitted to a zero-value group and
both panic, with `panic(nil)` on a Go runtime where `recover()` then reports
nil.  Each deferred function finds `r == nil` at line 93, skips `errOnce.Do`
and calls `g.wg.Done()`: the latch is never taken, `g.err` is never set, and
`Wait(Error)` returns nil although every task panicked. -/
theorem C3_counterexample :
    run zeroGroup nilPanicRaceTrace = some nilPanicRaceState ∧
    nilPanicRaceState.gs =
      [{ out := some (.panicked none), pc := .exited },
       { out := some (.panicked none), pc := .exited }] ∧
    nilPanicRaceState.errOnce = .fresh ∧ nilPanicRaceState.winner = none ∧
    nilPanicRaceState.err = none ∧
    nilPanicRaceState.waiter = .finished Error (.returned none) :=
  ⟨rfl, rfl, rfl, rfl, rfl, rfl⟩

/-- C3, amended (first failure wins, a task counting as failed when it returned
a non-nil error or panicked with a value that `recover()` reports as non-nil:
`Outcome.failed`).  After any schedule of a group:
* the wrapper whose `errOnce.Do` call ran the function is the one that made the
  first `Do` call of the schedule;
* if `g.err` is non-nil, it is the value that function assigned for the outcome
  of that one wrapper's task (the returned error, or the `*PanicError` built
  from the panic value);
* once `g.err` is non-nil, no later action of any continuation changes it;
* when the counter is zero and some wrapper's task failed, `g.err` is non-nil
  and a `Wait(Error)` call at the barrier runs to its end and returns that
  value, which is the failure of one of the wrappers. -/
theorem C3_first_failure_wins (c : Bool) (as : List (Action E V)) (s : State E V)
    (hrun : run (init c) as = some s) :
    s.winner = firstDo as ∧
    (∀ e, s.err = some e →
      ∃ i w o stk, s.winner = some i ∧ s.gs[i]? = some w ∧ w.out = some o ∧
        o.failed = true ∧ latchValue o stk = some e) ∧
    (∀ e, s.err = some e → ∀ bs s', run s bs = some s' → s'.err = some e) ∧
    (s.wg = 0 → (∃ w ∈ s.gs, w.failed = true) → s.waiter = .atBarrier Error →
      ∃ e s', s.err = some e ∧ finishWait s = some s' ∧
        s'.waiter = .finished Error (.returned (some e)) ∧
        ∃ (i : Nat) (w : Wrapper E V) (o : Outcome E V) (stk : List UInt8),
          s.gs[i]? = some w ∧ w.out = some o ∧ o.failed = true ∧
          latchValue o stk = some e) := by
  have hI := run_inv (inv_init c) hrun
  refine ⟨run_winner_none (inv_init c) hrun rfl, ?_, ?_, ?_⟩
  · intro e he
    obtain ⟨i, w, o, stk, h1, h2, h3, h4, h5, _⟩ := err_winner hI he
    exact ⟨i, w, o, stk, h1, h2, h3, h4, h5⟩
  · intro e he bs s' hb
    exact run_err_stable hI hb he
  · intro h0 hex hwt
    obtain ⟨w, hm, hf⟩ := hex
    obtain ⟨i, hw⟩ := List.mem_iff_getElem?.mp hm
    have hpc := (wg_zero hI h0).2 i w hw
    obtain ⟨_, e, he⟩ := finished_failed_err hI hw (Or.inr hpc) hf
    obtain ⟨i0, w0, o0, stk, _, g2, g3, g4, g5, _⟩ := err_winner hI he
    refine ⟨e, _, he, finishWait_eq hwt h0, ?_, i0, w0, o0, stk, g2, g3, g4, g5⟩
    simp [he, waitResult]

/-- C3, amended, at `raceTrace`: two tasks fail and the wrapper submitted second
reaches `errOnce.Do` first; `g.err` is the `*PanicError` of that wrapper, it
stays so after the `Wait` call, and `Wait(Error)` returns it. -/
theorem C3_first_failure_wins_witness :
    (run (init true) raceTrace = some raceState ∧ raceState.winner = some 1 ∧
      raceState.err = some (.panicError (some { R := some "p1", Stack := [7] })) ∧
      raceState.wg = 0 ∧ (∃ w ∈ raceState.gs, w.failed = true) ∧
      raceState.waiter = .atBarrier Error) ∧
    (∃ e s', raceState.err = some e ∧ finishWait raceState = some s' ∧
        s'.waiter = .finished Error (.returned (some e)) ∧
        ∃ (i : Nat) (w : Wrapper String String) (o : Outcome String String)
          (stk : List UInt8),
          raceState.gs[i]? = some w ∧ w.out = some o ∧ o.failed = true ∧
          latchValue o stk = some e) ∧
    (raceState.winner = firstDo raceTrace ∧
    (∀ e, raceState.err = some e →
      ∃ i w o stk, raceState.winner = some i ∧ raceState.gs[i]? = some w ∧ w.out = some o ∧
        o.failed = true ∧ latchValue o stk = some e) ∧
    (∀ e, raceState.err = some e → ∀ bs s', run raceState bs = some s' → s'.err = some e) ∧
    (raceState.wg = 0 → (∃ w ∈ raceState.gs, w.failed = true) →
      raceState.waiter = .atBarrier Error →
      ∃ e s', raceState.err = some e ∧ finishWait raceState = some s' ∧
        s'.waiter = .finished Error (.returned (some e)) ∧
        ∃ (i : Nat) (w : Wrapper String String) (o : Outcome String String)
          (stk : List UInt8),
          raceState.gs[i]? = some w ∧ w.out = some o ∧ o.failed = true ∧
          latchValue o stk = some e)) :=
  ⟨⟨rfl, rfl, rfl, rfl, by decide, rfl⟩,
    (C3_first_failure_wins true raceTrace raceState rfl).2.2.2 rfl (by decide) rfl,
    C3_first_failure_wins true raceTrace raceState rfl⟩

/-! ## C4: invocations of the cancel function -/

/-- C4, counterexample.  With one failing task and one `Wait` call, the
function stored in `g.cancel` is invoked twice: once inside `errOnce.Do` (line
112) and once more by `Wait` (line 62). -/
theorem C4_counterexample :
    run WithContext failThenWaitTrace = some failThenWaitState ∧
    failThenWaitState.waitCalls = 1 ∧ failThenWaitState.latchCancels = 1 ∧
    failThenWaitState.waitCancels = 1 ∧ failThenWaitState.cancelCalls = 2 :=
  ⟨rfl, rfl, rfl, rfl, rfl⟩

/-- C4, amended.  In every reachable state: the function stored in `g.cancel`
has been invoked at most once from inside `errOnce.Do`, and only if `errOnce`
was entered; it has been invoked by `Wait` at most once per `Wait` call that got
past the barrier; so the total is at most one more than the number of `Wait`
calls.  With a cancel function, a latched failure and a single `Wait` call that
has executed lines 61 to 63, the total is exactly two.  Without a cancel
function it is zero. -/
theorem C4_cancel_at_most_once_per_site (c : Bool) (s : State E V) (hr : Reachable c s) :
    s.latchCancels ≤ 1 ∧ (0 < s.latchCancels → s.errOnce ≠ .fresh) ∧
    s.waitCancels ≤ s.waitPasses ∧ s.waitPasses ≤ s.waitCalls ∧
    s.cancelCalls ≤ 1 + s.waitCalls ∧
    (c = true → s.errOnce = .done → s.waiter.cancelled = true → s.waitCalls = 1 →
      s.cancelCalls = 2) ∧
    (c = false → s.cancelCalls = 0) := by
  have hI := reachable_inv hr
  have hc := reachable_cancel hr
  have h1 := hI.calls_eq
  have h2 := hI.cancels_eq
  have hl := latchCancels_cases hI
  have hwc : s.waitCancels ≤ s.waitPasses := by
    cases hcan : s.cancel with
    | false => simp only [hcan] at h2; simp at h2; omega
    | true => simp only [hcan, if_true] at h2; omega
  refine ⟨?_, ?_, hwc, by omega, ?_, ?_, ?_⟩
  · rcases hl with hl | ⟨_, hl, _⟩ <;> omega
  · intro hpos
    rcases hl with hl | ⟨_, _, hl⟩
    · omega
    · exact hl
  · unfold State.cancelCalls
    rcases hl with hl | ⟨_, hl, _⟩ <;> omega
  · intro hct hd hcd hcalls
    obtain ⟨_, _, _, _, _, _, _, _, _, hlc⟩ := done_winner hI hd
    rw [hc, hct] at hlc
    rw [hc, hct] at h2
    simp only [if_true] at h2 hlc
    have hb : s.waiter.blocked = 0 ∧ s.waiter.beforeCancel = 0 := by
      cases hw : s.waiter <;> simp [hw, Waiter.cancelled] at hcd <;>
        simp [Waiter.blocked, Waiter.beforeCancel]
    unfold State.cancelCalls
    omega
  · intro hcf
    rw [hc, hcf] at h2
    simp at h2
    unfold State.cancelCalls
    rcases hl with hl | ⟨hcan, _, _⟩
    · omega
    · rw [hc, hcf] at hcan; cases hcan

/-- C4, amended, at `failThenWaitState`: one failed task and one `Wait` call
that has returned. -/
theorem C4_cancel_at_most_once_per_site_witness :
    Reachable true failThenWaitState ∧
    (failThenWaitState.latchCancels ≤ 1 ∧
    (0 < failThenWaitState.latchCancels → failThenWaitState.errOnce ≠ .fresh) ∧
    failThenWaitState.waitCancels ≤ failThenWaitState.waitPasses ∧
    failThenWaitState.waitPasses ≤ failThenWaitState.waitCalls ∧
    failThenWaitState.cancelCalls ≤ 1 + failThenWaitState.waitCalls ∧
    (true = true → failThenWaitState.errOnce = .done →
      failThenWaitState.waiter.cancelled = true → failThenWaitState.waitCalls = 1 →
      failThenWaitState.cancelCalls = 2) ∧
    (true = false → failThenWaitState.cancelCalls = 0)) :=
  ⟨failThenWaitState_reachable,
    C4_cancel_at_most_once_per_site true failThenWaitState failThenWaitState_reachable⟩

/-! ## C5: scope cancellation -/

/-- C5, counterexample.  On a group made by `WithContext`, a task returns the
error `"e1"` and its wrapper executes `g.err = err` (line 110) inside
`errOnce.Do`: the failure is recorded in `g.err`, the latch is taken, and the
cancel function has not been invoked, since the call of line 112 comes after
the assignment. -/
theorem C5_counterexample :
    run WithContext assignedTrace = some assignedState ∧
    assignedState.err = some (.plain "e1") ∧ assignedState.winner = some 0 ∧
    assignedState.gs[0]? =
      some { out := some (.returned (some (.plain "e1"))), pc := .callCancel } ∧
    assignedState.cancel = true ∧ assignedState.cancelCalls = 0 :=
  ⟨rfl, rfl, rfl, rfl, rfl, rfl⟩

/-- C5, amended.  After any schedule of the group returned by `WithContext`:
* if the wrapper that recorded the failure in `g.err` has gone past the
  `g.cancel` statement that follows the assignment inside `errOnce.Do`, in
  particular if that `Do` call has returned, the cancel function has been
  invoked;
* if some `Wait` call has returned, or the current one has executed lines 61
  to 63, the cancel function has been invoked;
* if no task has failed and no `Wait` call has got past its barrier, the group
  has not invoked it;
* the only states where `g.err` is already non-nil and the cancel function not
  yet invoked are those where the wrapper that assigned `g.err` is between its
  assignment and the `g.cancel` test that follows it. -/
theorem C5_scope_cancellation (as : List (Action E V)) (s : State E V)
    (hrun : run WithContext as = some s) :
    (∀ (i : Nat) (w : Wrapper E V), s.winner = some i → s.gs[i]? = some w →
      (w.pc = .leaveDo ∨ w.pc = .atDone ∨ w.pc = .exited) → 0 < s.cancelCalls) ∧
    (s.errOnce = .done → 0 < s.cancelCalls) ∧
    (0 < s.waitReturns → 0 < s.cancelCalls) ∧
    (s.waiter.cancelled = true → 0 < s.cancelCalls) ∧
    ((∀ w ∈ s.gs, w.failed = false) → s.waitPasses = 0 → s.cancelCalls = 0) ∧
    (s.err ≠ none → 0 < s.cancelCalls ∨
      ∃ i w, s.winner = some i ∧ s.gs[i]? = some w ∧ w.pc = .callCancel) := by
  have hr : Reachable true s := ⟨as, hrun⟩
  have hI := reachable_inv hr
  have hc := reachable_cancel hr
  have h2 := hI.cancels_eq
  have h5 := hI.returns_eq
  have h4 := hI.passed_pos
  rw [hc] at h2
  simp only [if_true] at h2
  have hle := beforeCancel_le_inside s.waiter
  have hpast : ∀ (i : Nat) (w : Wrapper E V), s.winner = some i → s.gs[i]? = some w →
      (w.pc = .leaveDo ∨ w.pc = .atDone ∨ w.pc = .exited) → 0 < s.cancelCalls := by
    intro i w hwin hw hp
    obtain ⟨w0, o0, g1, _, _, g4⟩ := hI.winner_ok i hwin
    rw [hw] at g1
    cases g1
    have hl : s.latchCancels = 1 := by
      rcases hp with hp | hp | hp <;> rw [hp] at g4 <;> have := g4.2.2 <;>
        rw [hc] at this <;> simpa using this
    unfold State.cancelCalls; omega
  refine ⟨hpast, ?_, ?_, ?_, ?_, ?_⟩
  · intro hd
    obtain ⟨_, _, _, _, _, _, _, _, _, hlc⟩ := done_winner hI hd
    rw [hc] at hlc
    simp only [if_true] at hlc
    unfold State.cancelCalls; omega
  · intro hpos
    unfold State.cancelCalls; omega
  · intro hcd
    have hp : s.waiter.passed = true := by
      cases hw : s.waiter <;> simp [hw, Waiter.cancelled] at hcd <;> simp [Waiter.passed]
    have hb : s.waiter.beforeCancel = 0 := by
      cases hw : s.waiter <;> simp [hw, Waiter.cancelled] at hcd <;> simp [Waiter.beforeCancel]
    have := h4 hp
    unfold State.cancelCalls; omega
  · intro hok hp
    have hok' : ∀ (j : Nat) (w : Wrapper E V), s.gs[j]? = some w → w.failed = false :=
      fun j w hw => hok w (List.mem_iff_getElem?.mpr ⟨j, hw⟩)
    obtain ⟨_, _, hl⟩ := no_failure_fresh hI hok'
    unfold State.cancelCalls; omega
  · intro hne
    cases he : s.err with
    | none => exact absurd he hne
    | some e =>
      obtain ⟨i, w, o, stk, h1, hw, ho, hf, hv, hns⟩ := err_winner hI he
      obtain ⟨w0, o0, g1, _, _, g4⟩ := hI.winner_ok i h1
      rw [hw] at g1
      cases g1
      cases hpc : w.pc with
      | callF => rw [hpc] at g4; exact g4.elim
      | atDo => rw [hpc] at g4; exact g4.elim
      | setErr => exact absurd hpc hns
      | callCancel => right; exact ⟨i, w, h1, hw, hpc⟩
      | leaveDo => left; exact hpast i w h1 hw (Or.inl hpc)
      | atDone => left; exact hpast i w h1 hw (Or.inr (Or.inl hpc))
      | exited => left; exact hpast i w h1 hw (Or.inr (Or.inr hpc))

/-- C5, amended, at three schedules of the group returned by `WithContext`:
`failThenWaitTrace` (a failure is latched, its wrapper has ended and `Wait` has
returned: the cancel function has been invoked), `runningTrace` (no task has
failed and `Wait` is blocked at its barrier: not invoked) and `assignedTrace`
(the wrapper is between the assignment and the cancel test). -/
theorem C5_scope_cancellation_witness :
    (run WithContext failThenWaitTrace = some failThenWaitState ∧
      failThenWaitState.winner = some 0 ∧
      failThenWaitState.gs[0]? =
        some { out := some (.returned (some (.plain "e1"))), pc := .exited } ∧
      failThenWaitState.errOnce = .done ∧ 0 < failThenWaitState.waitReturns ∧
      failThenWaitState.waiter.cancelled = true ∧ 0 < failThenWaitState.cancelCalls) ∧
    (run WithContext runningTrace = some runningState ∧
      (∀ w ∈ runningState.gs, w.failed = false) ∧ runningState.waitPasses = 0 ∧
      runningState.cancelCalls = 0) ∧
    (run WithContext assignedTrace = some assignedState ∧ assignedState.err ≠ none ∧
      (0 < assignedState.cancelCalls ∨
        ∃ i w, assignedState.winner = some i ∧ assignedState.gs[i]? = some w ∧
          w.pc = .callCancel)) :=
  ⟨⟨rfl, rfl, rfl, rfl, by decide, rfl,
      (C5_scope_cancellation failThenWaitTrace failThenWaitState rfl).1 0
        { out := some (.returned (some (.plain "e1"))), pc := .exited } rfl rfl
        (Or.inr (Or.inr rfl))⟩,
    ⟨rfl, by decide, rfl,
      (C5_scope_cancellation runningTrace runningState rfl).2.2.2.2.1 (by decide) rfl⟩,
    ⟨rfl, by decide,
      (C5_scope_cancellation assignedTrace assignedState rfl).2.2.2.2.2 (by decide)⟩⟩

/-! ## C6: `Wait(Error)` returns the latched failure -/

/-- C6 (`Wait(Error)` returns the latched failure).  In a reachable state
where `g.err` holds the non-nil value `e`: `e` is what the function run by
`errOnce.Do` assigned for the outcome of a task (its returned error, or the
`*PanicError` built from its panic); lines 65 to 80 under `Error` give
`return e`; a `Wait(Error)` call that reads `g.err` in this state ends by
returning `e`; and a `Wait(Error)` call at the barrier with `wg = 0` runs to its
end and returns `e`.  No case panics. -/
theorem C6_wait_error_returns_latched (c : Bool) (s : State E V) (e : GoError E V)
    (hr : Reachable c s) (herr : s.err = some e) :
    (∃ i w o stk, s.winner = some i ∧ s.gs[i]? = some w ∧ w.out = some o ∧
      o.failed = true ∧ latchValue o stk = some e) ∧
    waitResult s.err Error = .returned (some e) ∧
    (s.waiter = .afterCancel Error →
      step s .waitReturn = some { s with waiter := .finished Error (.returned (some e)),
                                         waitReturns := s.waitReturns + 1 }) ∧
    (s.waiter = .atBarrier Error → s.wg = 0 →
      ∃ s', finishWait s = some s' ∧ s'.waiter = .finished Error (.returned (some e)) ∧
        s'.err = some e) := by
  have hI := reachable_inv hr
  have hres : waitResult s.err Error = .returned (some e) := by simp [herr, waitResult]
  refine ⟨?_, hres, ?_, ?_⟩
  · obtain ⟨i, w, o, stk, h1, h2, h3, h4, h5, _⟩ := err_winner hI herr
    exact ⟨i, w, o, stk, h1, h2, h3, h4, h5⟩
  · intro hw
    simp only [step, hw, hres]
  · intro hw h0
    refine ⟨_, finishWait_eq hw h0, ?_, herr⟩
    simp only [hres]

/-- C6 at `errState Error`: `g.err` holds the plain error `"e1"`. -/
theorem C6_wait_error_returns_latched_witness :
    (Reachable true (errState Error) ∧ (errState Error).err = some (.plain "e1")) ∧
    ((∃ i w o stk, (errState Error).winner = some i ∧ (errState Error).gs[i]? = some w ∧
      w.out = some o ∧ o.failed = true ∧ latchValue o stk = some (.plain "e1")) ∧
    waitResult (errState Error).err Error = .returned (some (.plain "e1")) ∧
    ((errState Error).waiter = .afterCancel Error →
      step (errState Error) .waitReturn =
        some { (errState Error) with
          waiter := .finished Error (.returned (some (.plain "e1"))),
          waitReturns := (errState Error).waitReturns + 1 }) ∧
    ((errState Error).waiter = .atBarrier Error → (errState Error).wg = 0 →
      ∃ s', finishWait (errState Error) = some s' ∧
        s'.waiter = .finished Error (.returned (some (.plain "e1"))) ∧
        s'.err = some (.plain "e1"))) :=
  ⟨⟨errState_reachable Error, rfl⟩,
    C6_wait_error_returns_latched true (errState Error) (.plain "e1")
      (errState_reachable Error) rfl⟩

/-! ## C7: counter integrity -/

/-- C7 (counter integrity).  In every reachable state:
* the counter of the wait group equals the number of `Go` calls that have done
  `wg.Add(1)` and whose wrapper has not done `wg.Done()` (callers of `Go` that
  have not started their goroutine yet, plus wrappers that have not ended); it
  is not negative; it is zero exactly when no `Go` call is under way and every
  wrapper has ended;
* `goAdd` is always possible and adds one; a `wgDone` action subtracts one and
  leaves the counter non-negative; no other action changes the counter;
* every wrapper whose task has ended, by a return of nil, a return of an
  error or a panic, can run on to the end of the goroutine, and on the way the
  counter goes down by exactly one (by nothing if the wrapper had ended);
* a `Wait` call at the barrier can pass exactly when the counter is zero; and
  when no `Go` call is under way and every task has ended, the wrappers alone
  can bring the counter to zero, after which the `Wait` call runs to its end:
  a task that returned an error or panicked cannot block `Wait` for good. -/
theorem C7_counter_integrity (c : Bool) (s : State E V) (hr : Reachable c s) :
    s.wg = (s.spawning : Int) + (live s.gs : Int) ∧ 0 ≤ s.wg ∧
    (s.wg = 0 ↔ s.spawning = 0 ∧ ∀ w ∈ s.gs, w.pc = .exited) ∧
    (∃ s', step s .goAdd = some s' ∧ s'.wg = s.wg + 1) ∧
    (∀ i s', step s (.wgDone i) = some s' → s'.wg = s.wg - 1 ∧ 0 ≤ s'.wg) ∧
    (∀ a s', step s a = some s' → a ≠ .goAdd → (∀ i, a ≠ .wgDone i) → s'.wg = s.wg) ∧
    (∀ (i : Nat) (w : Wrapper E V), s.gs[i]? = some w → w.pc ≠ .callF →
      ∃ s', Reach s s' ∧ s'.gs[i]? = some { w with pc := .exited } ∧
        s'.wg = s.wg - (if w.pc = .exited then 0 else 1)) ∧
    (∀ wo, s.waiter = .atBarrier wo → ((step s .waitPass).isSome ↔ s.wg = 0)) ∧
    (s.spawning = 0 → (∀ w ∈ s.gs, w.pc ≠ .callF) → ∀ wo, s.waiter = .atBarrier wo →
      ∃ s1 s2, Reach s s1 ∧ s1.wg = 0 ∧ finishWait s1 = some s2 ∧
        s2.waiter = .finished wo (waitResult s1.err wo)) := by
  have hI := reachable_inv hr
  have hwg := hI.wg_eq
  refine ⟨hwg, by omega, ?_, ?_, ?_, ?_, ?_, ?_, ?_⟩
  · constructor
    · intro h0
      obtain ⟨h1, h2⟩ := wg_zero hI h0
      refine ⟨h1, ?_⟩
      intro w hm
      obtain ⟨j, hj⟩ := List.mem_iff_getElem?.mp hm
      exact h2 j w hj
    · rintro ⟨h1, h2⟩
      have : live s.gs = 0 :=
        all_live_zero (fun j w hj => h2 w (List.mem_iff_getElem?.mpr ⟨j, hj⟩))
      omega
  · exact ⟨_, rfl, rfl⟩
  · intro i s' hs
    have hI' := step_inv hI hs
    have hwg' := hI'.wg_eq
    have : s'.wg = s.wg - 1 := by
      simp only [step] at hs
      (repeat' split at hs) <;> cases hs
      rfl
    exact ⟨this, by omega⟩
  · intro a s' hs h1 h2
    cases a with
    | goAdd => exact absurd rfl h1
    | wgDone i => exact absurd rfl (h2 i)
    | _ =>
      simp only [step] at hs
      (repeat' split at hs) <;> cases hs <;> rfl
  · intro i w hw hpc
    exact wrapper_finishes hI hw hpc
  · intro wo hw
    simp only [step, hw]
    by_cases h0 : s.wg = 0 <;> simp [h0]
  · intro hsp hall wo hw
    have hall' : AllEnded s := fun j w hj => hall w (List.mem_iff_getElem?.mpr ⟨j, hj⟩)
    obtain ⟨s1, hr1, h0, hwt⟩ := drain hI hsp hall'
    exact ⟨s1, _, hr1, h0, finishWait_eq (by rw [hwt, hw]) h0, rfl⟩

/-- C7 at `mixedState`: three wrappers whose tasks ended in the three ways, and
a `Go` call that has not started its goroutine. -/
theorem C7_counter_integrity_witness :
    Reachable false mixedState ∧
    (mixedState.wg = (mixedState.spawning : Int) + (live mixedState.gs : Int) ∧
    0 ≤ mixedState.wg ∧
    (mixedState.wg = 0 ↔ mixedState.spawning = 0 ∧ ∀ w ∈ mixedState.gs, w.pc = .exited) ∧
    (∃ s', step mixedState .goAdd = some s' ∧ s'.wg = mixedState.wg + 1) ∧
    (∀ i s', step mixedState (.wgDone i) = some s' →
      s'.wg = mixedState.wg - 1 ∧ 0 ≤ s'.wg) ∧
    (∀ a s', step mixedState a = some s' → a ≠ .goAdd → (∀ i, a ≠ .wgDone i) →
      s'.wg = mixedState.wg) ∧
    (∀ (i : Nat) (w : Wrapper String String), mixedState.gs[i]? = some w → w.pc ≠ .callF →
      ∃ s', Reach mixedState s' ∧ s'.gs[i]? = some { w with pc := .exited } ∧
        s'.wg = mixedState.wg - (if w.pc = .exited then 0 else 1)) ∧
    (∀ wo, mixedState.waiter = .atBarrier wo →
      ((step mixedState .waitPass).isSome ↔ mixedState.wg = 0)) ∧
    (mixedState.spawning = 0 → (∀ w ∈ mixedState.gs, w.pc ≠ .callF) →
      ∀ wo, mixedState.waiter = .atBarrier wo →
      ∃ s1 s2, Reach mixedState s1 ∧ s1.wg = 0 ∧ finishWait s1 = some s2 ∧
        s2.waiter = .finished wo (waitResult s1.err wo))) :=
  ⟨mixedState_reachable, C7_counter_integrity false mixedState mixedState_reachable⟩

/-! ## C8: no failure -/

/-- C8 (no-failure case).  Take any schedule of a group, with or without a
cancel function, after which every task that has ended returned nil.  Then
`g.err` is nil at the end and was nil after every earlier action of the schedule,
`errOnce` was never used, lines 65 to 80 give `return nil` under every mode, and
a `Wait(wo)` call at the barrier with `wg = 0` runs to its end and returns nil,
for `Error`, `Panic` and any other `wo`. -/
theorem C8_no_failure (c : Bool) (as : List (Action E V)) (s : State E V)
    (hrun : run (init c) as = some s)
    (hok : ∀ w ∈ s.gs, w.out = none ∨ w.out = some (.returned none)) :
    s.err = none ∧ s.errOnce = .fresh ∧
    (∀ as1 as2 s1, as = as1 ++ as2 → run (init c) as1 = some s1 → s1.err = none) ∧
    (∀ wo, waitResult s.err wo = .returned none) ∧
    (∀ wo, s.waiter = .atBarrier wo → s.wg = 0 →
      ∃ s', finishWait s = some s' ∧ s'.waiter = .finished wo (.returned none) ∧
        s'.err = none) := by
  have hI := run_inv (inv_init c) hrun
  have hok' : ∀ (j : Nat) (w : Wrapper E V), s.gs[j]? = some w → w.failed = false := by
    intro j w hw
    have hm : w ∈ s.gs := List.mem_iff_getElem?.mpr ⟨j, hw⟩
    rcases hok w hm with h | h <;> simp [Wrapper.failed, h, Outcome.failed]
  obtain ⟨hf, he, _⟩ := no_failure_fresh hI hok'
  refine ⟨he, hf, ?_, ?_, ?_⟩
  · intro as1 as2 s1 has h1
    cases hs1 : s1.err with
    | none => rfl
    | some e =>
      rw [has, run_append, h1] at hrun
      have := run_err_stable (run_inv (inv_init c) h1) hrun hs1
      rw [he] at this; cases this
  · intro wo; simp [he, waitResult]
  · intro wo hw h0
    refine ⟨_, finishWait_eq hw h0, ?_, he⟩
    simp [he, waitResult]

/-- C8 at `okTrace`: two tasks that return nil. -/
theorem C8_no_failure_witness :
    (run (init true) okTrace = some okState ∧
      ∀ w ∈ okState.gs, w.out = none ∨ w.out = some (.returned none)) ∧
    (okState.err = none ∧ okState.errOnce = .fresh ∧
    (∀ as1 as2 s1, okTrace = as1 ++ as2 → run (init true) as1 = some s1 → s1.err = none) ∧
    (∀ wo, waitResult okState.err wo = .returned none) ∧
    (∀ wo, okState.waiter = .atBarrier wo → okState.wg = 0 →
      ∃ s', finishWait okState = some s' ∧ s'.waiter = .finished wo (.returned none) ∧
        s'.err = none)) :=
  ⟨⟨rfl, by decide⟩, C8_no_failure true okTrace okState rfl (by decide)⟩

/-! ## C9: zero-value group -/

/-- C9 (a zero-value group is valid and does not cancel).  A schedule can be
run on a zero-value group exactly when it can be run on a group made by
`WithContext`, and the two final states agree on every field (the counter,
`errOnce`, `g.err`, the wrappers, the state and result of `Wait`) except
`cancel` and the counts of its invocations.  In every state of the zero-value
group `cancel` is still nil and has never been invoked, also after one more
action; every wrapper whose task has ended, by a return or a panic, can run to
its end without an invocation; and `Wait(wo)` at the barrier with `wg = 0`
returns the result that lines 65 to 80 give for `g.err`. -/
theorem C9_zero_value_group (as : List (Action E V)) :
    run zeroGroup as = (run WithContext as).map forget ∧
    ∀ s, run zeroGroup as = some s →
      s.cancel = false ∧ s.cancelCalls = 0 ∧
      (∀ a s', step s a = some s' → s'.cancel = false ∧ s'.cancelCalls = 0) ∧
      (∀ (i : Nat) (w : Wrapper E V), s.gs[i]? = some w → w.pc ≠ .callF →
        ∃ s', Reach s s' ∧ s'.gs[i]? = some { w with pc := .exited } ∧
          s'.cancel = false ∧ s'.cancelCalls = 0) ∧
      (∀ wo, s.waiter = .atBarrier wo → s.wg = 0 →
        ∃ s', finishWait s = some s' ∧ s'.waiter = .finished wo (waitResult s.err wo) ∧
          s'.err = s.err ∧ s'.cancelCalls = 0) := by
  have hsim : run (zeroGroup : State E V) as = (run WithContext as).map forget := by
    have := run_forget (WithContext : State E V) as
    exact this
  have hz : ∀ s : State E V, Reachable false s → s.cancel = false ∧ s.cancelCalls = 0 := by
    intro s hr
    have hc := reachable_cancel hr
    have hI := reachable_inv hr
    have h2 := hI.cancels_eq
    rw [hc] at h2
    simp at h2
    refine ⟨hc, ?_⟩
    unfold State.cancelCalls
    rcases latchCancels_cases hI with hl | ⟨hcan, _, _⟩
    · omega
    · rw [hc] at hcan; cases hcan
  refine ⟨hsim, ?_⟩
  intro s hs
  have hr : Reachable false s := ⟨as, hs⟩
  obtain ⟨h1, h2⟩ := hz s hr
  refine ⟨h1, h2, ?_, ?_, ?_⟩
  · intro a s' ha
    apply hz s'
    refine ⟨as ++ [a], ?_⟩
    have hs0 : run (init false) as = some s := hs
    rw [run_append, hs0]
    simp [run, ha]
  · intro i w hw hpc
    obtain ⟨s', hr', hs', _⟩ := wrapper_finishes (reachable_inv hr) hw hpc
    obtain ⟨bs, _, hbs⟩ := hr'
    have hr2 : Reachable false s' := by
      refine ⟨as ++ bs, ?_⟩
      have hs0 : run (init false) as = some s := hs
      rw [run_append, hs0]
      exact hbs
    obtain ⟨g1, g2⟩ := hz s' hr2
    exact ⟨s', ⟨bs, by assumption, hbs⟩, hs', g1, g2⟩
  · intro wo hw h0
    refine ⟨_, finishWait_eq hw h0, rfl, rfl, ?_⟩
    unfold State.cancelCalls at h2 ⊢
    simp only [h1]
    simp
    omega

/-- C9 at `boomTrace Error`, a schedule of a zero-value group with a panicking
task. -/
theorem C9_zero_value_group_witness :
    run (init false) (boomTrace Error) = some (boomState Error) ∧
    (run zeroGroup (boomTrace Error) = (run WithContext (boomTrace Error)).map forget ∧
    ∀ s, run zeroGroup (boomTrace Error) = some s →
      s.cancel = false ∧ s.cancelCalls = 0 ∧
      (∀ a s', step s a = some s' → s'.cancel = false ∧ s'.cancelCalls = 0) ∧
      (∀ (i : Nat) (w : Wrapper String String), s.gs[i]? = some w → w.pc ≠ .callF →
        ∃ s', Reach s s' ∧ s'.gs[i]? = some { w with pc := .exited } ∧
          s'.cancel = false ∧ s'.cancelCalls = 0) ∧
      (∀ wo, s.waiter = .atBarrier wo → s.wg = 0 →
        ∃ s', finishWait s = some s' ∧ s'.waiter = .finished wo (waitResult s.err wo) ∧
          s'.err = s.err ∧ s'.cancelCalls = 0)) :=
  ⟨rfl, C9_zero_value_group (boomTrace Error)⟩

/-! ## C10: latch before decrement -/

/-- C10, counterexample.  The one task of a group made by `WithContext` panics,
with `panic(nil)` on a Go runtime where `recover()` then reports nil.  The
deferred function finds `r == nil` at line 93 and calls `g.wg.Done()` with
nothing offered to the latch: the counter is zero, a finished task has
panicked, `g.err` is nil, and `Wait(Error)` passes the barrier and returns
nil. -/
theorem C10_counterexample :
    run WithContext nilPanicTrace = some nilPanicState ∧
    nilPanicState.wg = 0 ∧
    nilPanicState.gs = [{ out := some (.panicked none), pc := .exited }] ∧
    nilPanicState.errOnce = .fresh ∧ nilPanicState.err = none ∧
    (finishWait nilPanicState).map (fun s => s.waiter) =
      some (.finished Error (.returned none)) :=
  ⟨rfl, rfl, rfl, rfl, rfl, rfl⟩

/-- C10, amended (latch before decrement, a task counting as failed when it
returned a non-nil error or panicked with a value that `recover()` reports as
non-nil: `Outcome.failed`).  In every reachable state: a wrapper whose
task failed and that is at `g.wg.Done()` or past it has been through
`errOnce.Do`, which has returned, and `g.err` is non-nil; in particular this
holds just before each `wgDone` action of such a wrapper.  Hence when the
counter is zero and some wrapper's task failed, `g.err` is non-nil, and a
`Wait(wo)` call at the barrier runs to its end with a result other than
`return nil`. -/
theorem C10_latch_before_decrement (c : Bool) (s : State E V) (hr : Reachable c s) :
    (∀ (i : Nat) (w : Wrapper E V), s.gs[i]? = some w → w.failed = true →
      (w.pc = .atDone ∨ w.pc = .exited) → s.errOnce = .done ∧ s.err ≠ none) ∧
    (∀ (i : Nat) (w : Wrapper E V) (s' : State E V), s.gs[i]? = some w → w.failed = true →
      step s (.wgDone i) = some s' → s.errOnce = .done ∧ s.err ≠ none ∧ s'.err = s.err) ∧
    (s.wg = 0 → (∃ w ∈ s.gs, w.failed = true) →
      s.err ≠ none ∧
      ∀ wo, s.waiter = .atBarrier wo →
        ∃ s' res, finishWait s = some s' ∧ s'.waiter = .finished wo res ∧
          res ≠ .returned none) := by
  have hI := reachable_inv hr
  have key : ∀ (i : Nat) (w : Wrapper E V), s.gs[i]? = some w → w.failed = true →
      (w.pc = .atDone ∨ w.pc = .exited) → s.errOnce = .done ∧ s.err ≠ none := by
    intro i w hw hf hp
    obtain ⟨hd, e, he⟩ := finished_failed_err hI hw hp hf
    exact ⟨hd, by rw [he]; simp⟩
  refine ⟨key, ?_, ?_⟩
  · intro i w s' hw hf hs
    have hpc : w.pc = .atDone := by
      simp only [step, hw] at hs
      split at hs
      · assumption
      · cases hs
    obtain ⟨hd, hne⟩ := key i w hw hf (Or.inl hpc)
    refine ⟨hd, hne, ?_⟩
    cases he : s.err with
    | none => exact absurd he hne
    | some e => exact step_err_stable hI hs he
  · intro h0 hex
    obtain ⟨w, hm, hf⟩ := hex
    obtain ⟨i, hw⟩ := List.mem_iff_getElem?.mp hm
    have hpc := (wg_zero hI h0).2 i w hw
    obtain ⟨_, hne⟩ := key i w hw hf (Or.inr hpc)
    refine ⟨hne, ?_⟩
    intro wo hwt
    refine ⟨_, waitResult s.err wo, finishWait_eq hwt h0, rfl, ?_⟩
    cases he : s.err with
    | none => exact absurd he hne
    | some e =>
      rcases waitResult_some e wo with h | ⟨p, _, h⟩ <;> rw [h] <;> simp

/-- C10, amended, at `beforeDoneState` (the wrapper of a task that panicked with
`"boom"` is about to call `g.wg.Done()`: `errOnce.Do` has returned and `g.err`
is set) and at `boomState Error` (the counter is zero, the one task panicked
with `"boom"`: `g.err` is non-nil and `Wait(Error)` does not return nil). -/
theorem C10_latch_before_decrement_witness :
    (Reachable false beforeDoneState ∧
      beforeDoneState.gs[0]? = some { out := some (.panicked (some "boom")), pc := .atDone } ∧
      (step beforeDoneState (.wgDone 0)).isSome = true ∧
      beforeDoneState.errOnce = .done ∧ beforeDoneState.err ≠ none) ∧
    (Reachable false (boomState Error) ∧ (boomState Error).wg = 0 ∧
      (∃ w ∈ (boomState Error).gs, w.failed = true) ∧
      (boomState Error).err ≠ none ∧
      ∀ wo, (boomState Error).waiter = .atBarrier wo →
        ∃ s' res, finishWait (boomState Error) = some s' ∧ s'.waiter = .finished wo res ∧
          res ≠ .returned none) :=
  ⟨⟨⟨beforeDoneTrace, rfl⟩, rfl, rfl,
      (C10_latch_before_decrement false beforeDoneState ⟨beforeDoneTrace, rfl⟩).1 0
        { out := some (.panicked (some "boom")), pc := .atDone } rfl rfl (Or.inl rfl)⟩,
    ⟨boomState_reachable Error, rfl, by decide,
      (C10_latch_before_decrement false (boomState Error) (boomState_reachable Error)).2.2
        rfl (by decide)⟩⟩

end panicrgoup
